import Mathlib

/-!
Shallow embedding of the WabashOS/xen integrated gang scheduler
(xen/common/sched_gang.c, tools/gangi_ctl/gs_sched_test.cc and the public
policy header include/public/gang_sched_policies.h), together with theorems
that settle the frozen claims about it.

Conventions used throughout:
* Times (s_time_t, nanoseconds) are modelled as Int; wire-format uint64
  quantities are modelled as Nat and cast to Int where the C code casts
  them to s_time_t.  STIME_MAX is the INFINITY sentinel.
* cpumask_t values are modelled as Finset Nat.
* The red-black-tree priority queues are modelled as lists sorted by the
  corresponding comparison key; insertion walks the list and places the
  new ticket after every ticket whose key is not larger.
* BUG() / panic paths are modelled by Option results (none = the kernel
  would have crashed); debug-only ASSERT / CHECK statements that merely
  re-check an already-modelled condition are elided where noted.
-/

namespace GangSched

/-- STIME_MAX, used by the scheduler as the INFINITY sentinel (sched_gang.c). -/
def INFINITY : Int := 9223372036854775807

/-- UINT64_MAX, used by the control tool gs_sched_test.h as its INFINITY sentinel. -/
def TOOL_INFINITY : Nat := 18446744073709551615

/-- MARGIN (10 us in ns): remaining time below this is treated as zero. -/
def MARGIN : Int := 10000

/-- MIN_NEGATIVE_DIFF (-10 us in ns) from update_times_in_ticket. -/
def MIN_NEGATIVE_DIFF : Int := -10000

/-- Parameters of the no-muxing (exclusive) policy, from gang_sched_policies.h.
The field holding the start time is called from in the C struct. -/
structure no_muxing_params where
  fromT : Nat
deriving DecidableEq, Repr

/-- Parameters of the time-triggered policy (gang_sched_policies.h). -/
structure tt_muxing_params where
  fromT : Nat
  period : Nat
  active_time : Nat
  space_filling : Bool
deriving DecidableEq, Repr

/-- Parameters of the event-triggered policy (gang_sched_policies.h). -/
structure et_muxing_params where
  fromT : Nat
  period : Nat
  active_time : Nat
  space_filling : Bool
deriving DecidableEq, Repr

/-- Parameters of the best-effort policy (gang_sched_policies.h). -/
structure be_muxing_params where
  fromT : Nat
  weight : Nat
  space_filling : Bool
deriving DecidableEq, Repr

/-- gang_sched_policy_t: tagged union of the four valid policy kinds.
The NOT_SET tag (code 0) is excluded: VALIDATE_GANG_SCHED_POLICY_TYPE
rejects it everywhere a policy enters the modelled code. -/
inductive gang_sched_policy where
  | noMuxing (p : no_muxing_params)
  | ttMuxing (p : tt_muxing_params)
  | etMuxing (p : et_muxing_params)
  | beMuxing (p : be_muxing_params)
deriving DecidableEq, Repr

/-- Tells whether a policy is the exclusive (GANG_NO_MUXING) kind. -/
def gang_sched_policy.isNoMuxing : gang_sched_policy → Bool
  | .noMuxing _ => true
  | _ => false

/-- Tells whether a policy is the best-effort (GANG_BEST_EFFORT_MUXING) kind. -/
def gang_sched_policy.isBeMuxing : gang_sched_policy → Bool
  | .beMuxing _ => true
  | _ => false

/-!
Hypervisor-side policy validation (sched_gang.c lines 2174-2289).
The argument rl is the boot parameter sched_ratelimit_us
(GANG_FINEST_TIME_GRAIN_IN_US), against which the C code compares the
nanosecond-valued period and active_time fields after casting them to
s_time_t.  A uint64 value at or above 2^63 becomes negative under the C
cast and is rejected by the first comparison; in this model the same
value is rejected by the INFINITY comparison instead, so the Boolean
outcome agrees for every input.
-/

/-- Model of validate_tt_muxing_params (sched_gang.c lines 2174-2208). -/
def __validate_tt_muxing_params (rl : Int) (params : tt_muxing_params) : Bool :=
  let period : Int := (params.period : Int)
  let active_time : Int := (params.active_time : Int)
  if period < rl then false
  else if INFINITY ≤ period then false
  else if active_time < rl then false
  else if INFINITY ≤ active_time then false
  else if period < active_time then false
  else true

/-- Model of validate_et_muxing_params (sched_gang.c lines 2213-2247);
its body is identical to the time-triggered validator. -/
def __validate_et_muxing_params (rl : Int) (params : et_muxing_params) : Bool :=
  let period : Int := (params.period : Int)
  let active_time : Int := (params.active_time : Int)
  if period < rl then false
  else if INFINITY ≤ period then false
  else if active_time < rl then false
  else if INFINITY ≤ active_time then false
  else if period < active_time then false
  else true

/-- Model of validate_be_muxing_params (sched_gang.c lines 2252-2256):
the body is literally return TRUE, with the comment
So far, nothing to validate. -/
def __validate_be_muxing_params (_params : be_muxing_params) : Bool :=
  true

/-- Model of validate_gang_sched_policy (sched_gang.c lines 2261-2289).
The NULL-pointer and unknown-tag rejections are unrepresentable here
because the policy argument is a total tagged value. -/
def __validate_gang_sched_policy (rl : Int) (p : gang_sched_policy) : Bool :=
  match p with
  | .noMuxing _ => true
  | .ttMuxing q => __validate_tt_muxing_params rl q
  | .etMuxing q => __validate_et_muxing_params rl q
  | .beMuxing q => __validate_be_muxing_params q

/-- Model of the control-tool validator validate_muxing_policy
(gs_sched_test.cc lines 41-85).  It compares the uint64 start time
against UINT64_MAX and enforces active_time < period for TT/ET and
weight different from 0 for BE. -/
def __validate_muxing_policy (p : gang_sched_policy) : Bool :=
  match p with
  | .ttMuxing q =>
      if q.fromT = TOOL_INFINITY then false
      else if q.period ≤ q.active_time then false
      else true
  | .etMuxing q =>
      if q.fromT = TOOL_INFINITY then false
      else if q.period ≤ q.active_time then false
      else true
  | .beMuxing q =>
      if q.fromT = TOOL_INFINITY then false
      else if q.weight = 0 then false
      else true
  | .noMuxing q =>
      if q.fromT = TOOL_INFINITY then false
      else true

/-!
Schedulability test of the control tool (gs_sched_test.cc).
The C implementation computes the utilisations in IEEE-754 binary64
(double) arithmetic, so the model does too: a double is represented as a
nonnegative mantissa times a power of two, and every arithmetic step
rounds the exact result to 53 bits of precision, to nearest with ties to
even (the IEEE default mode the C program runs under).  All quantities
the test computes are nonnegative and stay far inside the normal binary64
range (contributions lie in [2^-64, 1], totals below the domain count),
so signs, overflow, underflow, subnormals and NaNs cannot arise and are
not modelled; the division by zero of active_time / period is unreachable
because validation requires active_time < period.  The per-CPU vectors
are modelled as functions out of Nat, updated pointwise.  The debug-build
assert statements of the C file are elided.
-/

/-- Bit length of a natural number (index of its highest set bit plus
one), computed with structural fuel; 4096 bits cover every quantity this
model manipulates. -/
def bitlenAux : Nat → Nat → Nat
  | 0, _ => 0
  | fuel + 1, n => if n = 0 then 0 else bitlenAux fuel (n / 2) + 1

/-- Bit length of a natural number. -/
def bitlen (n : Nat) : Nat := bitlenAux 4096 n

/-- Floor of the base-2 logarithm of the positive rational a / b. -/
def floorLog2 (a b : Nat) : Int :=
  let L0 : Int := (bitlen a : Int) - (bitlen b : Int)
  if b * 2 ^ L0.toNat ≤ a * 2 ^ (-L0).toNat then L0 else L0 - 1

/-- A nonnegative finite binary64 (double) value num * 2 ^ exp.  The
rounding function below normalizes every result so that num is zero or
lies in [2^52, 2^53), the binary64 mantissa range. -/
structure F64 where
  num : Nat
  exp : Int
deriving DecidableEq, Repr

/-- Round the nonnegative rational a / b to the nearest binary64 value,
ties to even.  The scaled mantissa a * 2 ^ (52 - floorLog2 (a / b)) / b
lies in [2^52, 2^53); it is truncated and the remainder decides the
rounding direction, with a half-way remainder resolved to the even
mantissa; a carry into 2^53 renormalizes. -/
def roundRatF (a b : Nat) : F64 :=
  if a = 0 ∨ b = 0 then ⟨0, 0⟩
  else
    let L := floorLog2 a b
    let s : Int := 52 - L
    let num := a * 2 ^ s.toNat
    let den := b * 2 ^ (-s).toNat
    let q := num / den
    let r := num % den
    let m := if 2 * r < den then q
             else if den < 2 * r then q + 1
             else if q % 2 = 0 then q else q + 1
    if m = 2 ^ 53 then ⟨2 ^ 52, L - 51⟩ else ⟨m, L - 52⟩

/-- The double value 0.0. -/
def f64zero : F64 := ⟨0, 0⟩

/-- Conversion of an unsigned integer to double, as the C casts
(double) active_time and the implicit conversion of the divisor do; it
rounds, because integers above 2^53 are not all representable. -/
def f64ofNat (n : Nat) : F64 := roundRatF n 1

/-- The double value 1.0. -/
def f64one : F64 := f64ofNat 1

/-- Binary64 addition of nonnegative values: the exact sum, rounded. -/
def fadd (x y : F64) : F64 :=
  let m := min x.exp y.exp
  let s := x.num * 2 ^ (x.exp - m).toNat + y.num * 2 ^ (y.exp - m).toNat
  if 0 ≤ m then roundRatF (s * 2 ^ m.toNat) 1
  else roundRatF s (2 ^ (-m).toNat)

/-- Binary64 division of nonnegative values: the exact quotient, rounded. -/
def fdiv (x y : F64) : F64 :=
  let d := x.exp - y.exp
  if 0 ≤ d then roundRatF (x.num * 2 ^ d.toNat) y.num
  else roundRatF x.num (y.num * 2 ^ (-d).toNat)

/-- Comparison x < y of nonnegative finite doubles: exact on the values. -/
def F64.blt (x y : F64) : Bool :=
  let m := min x.exp y.exp
  decide (x.num * 2 ^ (x.exp - m).toNat < y.num * 2 ^ (y.exp - m).toNat)

/-- Comparison x <= y of nonnegative finite doubles. -/
def F64.ble (x y : F64) : Bool :=
  let m := min x.exp y.exp
  decide (x.num * 2 ^ (x.exp - m).toNat ≤ y.num * 2 ^ (y.exp - m).toNat)

/-- gs_dominfo_t of gs_sched_test.h: domain id, the array of assigned CPU
ids (num_of_cpus is its length) and the gang scheduling policy. -/
structure gs_dominfo where
  domid : Int
  cpus : List Nat
  gang_sched_policy : gang_sched_policy
deriving DecidableEq, Repr

/-- Model of validate_dominfos (gs_sched_test.cc lines 88-139): domain ids
must be non-negative, the CPU count of a domain must not exceed the system
CPU count, every CPU id must be in range and the policy must validate.
The NULL-entry check is unrepresentable for total list elements. -/
def __validate_dominfos (arr : List gs_dominfo) (cpu_count : Nat) : Bool :=
  arr.all fun di =>
    decide (0 ≤ di.domid) &&
    decide (di.cpus.length ≤ cpu_count) &&
    (di.cpus.all fun c => decide (c < cpu_count)) &&
    __validate_muxing_policy di.gang_sched_policy

/-- Utilisation contributed by one domain in are_schedulable, computed as
the C code computes it: 1.0 for an exclusive domain, the double division
((double) active_time) / period for TT and ET (both uint64 operands
converted to double first), and the collective best-effort utilisation
bedom_util for BE domains. -/
def dom_util (bedom_util : F64) (p : gang_sched_policy) : F64 :=
  match p with
  | .noMuxing _ => f64one
  | .ttMuxing q => fdiv (f64ofNat q.active_time) (f64ofNat q.period)
  | .etMuxing q => fdiv (f64ofNat q.active_time) (f64ofNat q.period)
  | .beMuxing _ => bedom_util

/-- One step of the inner loop of are_schedulable over the CPUs of one
domain: add (in double arithmetic) the utilisation to each listed CPU,
except that a best-effort domain charges a CPU only if no best-effort
domain was counted on that CPU yet (the bedom_considered_in_cpu flag). -/
def charge_cpus (isBE : Bool) (u : F64) (cpus : List Nat)
    (st : (Nat → F64) × (Nat → Bool)) : (Nat → F64) × (Nat → Bool) :=
  cpus.foldl
    (fun st c =>
      if isBE then
        if st.2 c then st
        else (Function.update st.1 c (fadd (st.1 c) u),
              Function.update st.2 c true)
      else (Function.update st.1 c (fadd (st.1 c) u), st.2))
    st

/-- Model of are_schedulable (gs_sched_test.cc lines 176-311).  Return
values follow the C function: 0 = the test passed, 1 = the test failed,
-22 (-EINVAL) = invalid input.  The verdict compares each accumulated
double total against 1.0 with the exact IEEE comparison.  The cpu2dom
map, which the C code builds only to print a failure report, is not
modelled. -/
def are_schedulable (arr : List gs_dominfo) (be_reserve : Nat)
    (be_basic_period : Nat) (cpu_count : Nat) : Int :=
  if cpu_count = 0 then -22
  else if be_reserve = 100 then 1
  else if 100 < be_reserve then -22
  else if be_basic_period = 0 then -22
  else if ¬ (__validate_dominfos arr cpu_count = true) then -22
  else if (List.range cpu_count).any (fun c =>
      F64.blt f64one ((arr.foldl
        (fun st di =>
          charge_cpus di.gang_sched_policy.isBeMuxing
            (dom_util (fdiv (f64ofNat be_reserve) (f64ofNat 100))
              di.gang_sched_policy) di.cpus st)
        ((fun _ => f64zero), (fun _ => false))).1 c))
  then 1 else 0

/-- Exact rational utilisation of one domain as the claim words it: 1 for
an exclusive domain, active_time / period for TT and ET, and
be_reserve / 100 for a best-effort domain. -/
def exact_dom_util (be_reserve : Nat) (p : gang_sched_policy) : ℚ :=
  match p with
  | .noMuxing _ => 1
  | .ttMuxing q => (q.active_time : ℚ) / (q.period : ℚ)
  | .etMuxing q => (q.active_time : ℚ) / (q.period : ℚ)
  | .beMuxing _ => (be_reserve : ℚ) / 100

/-- Exact total utilisation U[c] of one CPU as the claim words it: the sum
of the exact utilisations of the non-best-effort domains assigned to the
CPU, plus the best-effort reserve charged once iff at least one
best-effort domain is assigned to the CPU.  The program does not compute
this quantity: its double arithmetic diverges from it at boundary inputs,
which refutes the claim as stated. -/
def spec_total_util (arr : List gs_dominfo) (be_reserve : Nat) (c : Nat) : ℚ :=
  ((arr.filter fun di =>
      ¬ di.gang_sched_policy.isBeMuxing = true ∧ c ∈ di.cpus).map
    (fun di => exact_dom_util be_reserve di.gang_sched_policy)).sum
  + (if arr.any (fun di => di.gang_sched_policy.isBeMuxing && decide (c ∈ di.cpus))
     then (be_reserve : ℚ) / 100 else 0)

/-- Per-CPU projection of the charging loop: the contributions the main
loop of are_schedulable adds into total_util_per_cpu[c], in domain order;
a best-effort domain listing c contributes only when it is the first
best-effort domain on c (seen tracks bedom_considered_in_cpu[c]). -/
def cpu_contribs (bu : F64) (c : Nat) :
    List gs_dominfo → Bool → List F64
  | [], _ => []
  | di :: rest, seen =>
      if di.gang_sched_policy.isBeMuxing then
        if c ∈ di.cpus then
          (if seen then [] else [bu]) ++ cpu_contribs bu c rest true
        else cpu_contribs bu c rest seen
      else
        (if c ∈ di.cpus then [dom_util bu di.gang_sched_policy] else [])
          ++ cpu_contribs bu c rest seen

/-- The double-arithmetic total utilisation of one CPU: the per-CPU
contributions accumulated by binary64 additions in domain order from 0.0,
which the amended C2 theorem proves equal to the value are_schedulable
holds in total_util_per_cpu[c]. -/
def double_total_util (arr : List gs_dominfo) (be_reserve : Nat)
    (c : Nat) : F64 :=
  List.foldl fadd f64zero
    (cpu_contribs (fdiv (f64ofNat be_reserve) (f64ofNat 100)) c arr false)


/-!
Local scheduler state (sched_gang.c).  A scheduling ticket carries the
domain id of its gang_dom_info back-pointer; the three GSBIT flags are
modelled as Booleans.  The vcpu and on_my_behalf pointers are not part of
the model: the substitute-selection feature is disabled in the source
(on_my_behalf is assigned NULL where get_substitute_ticket is commented
out).
-/

/-- sched_ticket_t (sched_gang.c lines 517-561). -/
structure sched_ticket where
  domid : Nat
  earliest_start_time : Int
  deadline : Int
  remaining_time : Int
  activated_at : Int
  single_vcpu_yield : Bool
  is_sleeping : Bool
  was_waiting_4_event : Bool
deriving DecidableEq, Repr

/-- gang_dom_info_t (sched_gang.c lines 467-501), reduced to the fields the
modelled code reads: CPU mask, policy and cohort id. -/
structure gang_dom_info where
  cpumask : Finset Nat
  tm_muxing_spec : gang_sched_policy
  cohort : Nat
deriving DecidableEq

/-- Read-mostly globals of sched_gang.c consumed by the local scheduler:
the per-domain info table, the boot-time grain parameter, the best-effort
period and quantum, the per-cohort best-effort domain count, the cohort
mask array indexed as the schedule decision indexes it, the cohort and
muxgroup counts, and NR_CPUS. -/
structure gang_globals where
  dom_info : Nat → gang_dom_info
  ratelimit_us : Int
  period_4_be_doms : Int
  quantum_4_be_doms : Int
  be_doms_in_cohort : Nat → Int
  cohorts : Nat → Finset Nat
  num_of_cohorts : Nat
  num_of_muxgroups : Nat
  nr_cpus : Nat

/-- GANG_FINEST_TIME_GRAIN: the ratelimit boot parameter converted from
microseconds to nanoseconds. -/
def gang_globals.grain (g : gang_globals) : Int := 1000 * g.ratelimit_us

/-- sched_info_t (sched_gang.c lines 626-675): the EDF runnable queue and
the activation queue (red-black trees modelled as key-sorted lists) and
the current-ticket table indexed by pool-wide CPU id.  The
waiting-for-event hashtable is not consumed by the modelled paths. -/
structure sched_info where
  edf_runnable_Q : List sched_ticket
  activation_Q : List sched_ticket
  cur_ticket_per_cpu : Nat → Option sched_ticket

/-- Ordering key test of cmp_tckt_deadlines (sched_gang.c lines 576-593):
true when t1 orders at or before t2 in the EDF queue. -/
def edf_key_le (t1 t2 : sched_ticket) : Bool :=
  decide (t1.deadline < t2.deadline
    ∨ (t1.deadline = t2.deadline ∧ t1.domid ≤ t2.domid))

/-- Ordering key test of cmp_tckt_rel_times (sched_gang.c lines 597-613):
true when t1 orders at or before t2 in the activation queue. -/
def actv_key_le (t1 t2 : sched_ticket) : Bool :=
  decide (t1.earliest_start_time < t2.earliest_start_time
    ∨ (t1.earliest_start_time = t2.earliest_start_time ∧ t1.domid ≤ t2.domid))

/-- Model of insert_into_runnable_Q: ordered insertion by (deadline,
domid) into the sorted-list view of the red-black tree. -/
def __insert_into_runnable_Q (t : sched_ticket) :
    List sched_ticket → List sched_ticket
  | [] => [t]
  | u :: rest =>
      if edf_key_le u t then u :: __insert_into_runnable_Q t rest
      else t :: u :: rest

/-- Model of insert_into_activation_Q: ordered insertion by
(earliest_start_time, domid) into the sorted-list view of the tree. -/
def __insert_into_activation_Q (t : sched_ticket) :
    List sched_ticket → List sched_ticket
  | [] => [t]
  | u :: rest =>
      if actv_key_le u t then u :: __insert_into_activation_Q t rest
      else t :: u :: rest

/-- Reasons for calling update_times_in_ticket (sched_gang.c lines
1375-1390). -/
inductive update_reason where
  | normalScheduling
  | pausedDomain
  | unpausedDomain
  | globalAdjust
deriving DecidableEq, Repr

/-- Model of update_times_in_ticket (sched_gang.c lines 1401-1626) on the
NORMAL_SCHEDULING path; the PAUSED_DOMAIN and UNPAUSED_DOMAIN paths call
BUG() and the GLOBAL_ADJUST path panics, so all three yield none, as does
the monotonic-time sanity BUG when now - activated_at goes below -10 us.
An exclusive ticket is inserted into the activation queue untouched; a
multiplexed ticket has the elapsed time deducted from remaining_time and,
when the result drops under MARGIN, is re-armed according to its policy
before insertion.  The debug BUG_ON checks that only re-validate state
already expressed by the types are elided.  Division by the grain is C
truncating division; the scheduler only passes non-negative times, where
it agrees with Lean Int division. -/
def __update_times_in_ticket (g : gang_globals) (s : sched_info)
    (tkt : sched_ticket) (now : Int) (reason : update_reason) :
    Option sched_info :=
  let di := g.dom_info tkt.domid
  match reason with
  | .normalScheduling =>
      if di.tm_muxing_spec.isNoMuxing then
        some {s with activation_Q := __insert_into_activation_Q tkt s.activation_Q}
      else
        let diff := now - tkt.activated_at
        if diff < MIN_NEGATIVE_DIFF then none
        else
          let diff := if diff < 0 then 0 else diff
          let tkt1 := {tkt with remaining_time := tkt.remaining_time - diff}
          let tkt2 :=
            match di.tm_muxing_spec with
            | .ttMuxing p =>
                if tkt1.remaining_time < MARGIN then
                  { tkt1 with
                    earliest_start_time := tkt1.earliest_start_time + (p.period : Int),
                    deadline := tkt1.deadline + (p.period : Int),
                    remaining_time := (p.active_time : Int) }
                else tkt1
            | .etMuxing p =>
                if tkt1.remaining_time < MARGIN then
                  { tkt1 with
                    earliest_start_time := (now / g.grain) * g.grain,
                    deadline := tkt1.deadline + (p.period : Int),
                    remaining_time := (p.active_time : Int) }
                else tkt1
            | .beMuxing _ =>
                if tkt1.remaining_time < MARGIN then
                  { tkt1 with
                    earliest_start_time := (now / g.grain) * g.grain,
                    deadline := tkt1.deadline
                      + g.be_doms_in_cohort di.cohort * g.period_4_be_doms,
                    remaining_time := g.quantum_4_be_doms }
                else tkt1
            | .noMuxing _ => tkt1
          some {s with activation_Q := __insert_into_activation_Q tkt2 s.activation_Q}
  | _ => none

/-- Model of update_current_tickets (sched_gang.c lines 1636-1693): walk
the CPUs, and for each not-yet-checked CPU holding a current ticket,
update that ticket (which re-inserts it into the activation queue) and
mark the whole CPU mask of its domain as checked; finally zero the
current-ticket table. -/
def __update_current_tickets (g : gang_globals) (s : sched_info)
    (now : Int) : Option sched_info := do
  let st ← (List.range g.nr_cpus).foldlM
    (fun (st : Finset Nat × sched_info) cpu => do
      if cpu ∈ st.1 then pure st
      else
        match st.2.cur_ticket_per_cpu cpu with
        | none => pure st
        | some tkt => do
            let s2 ← __update_times_in_ticket g st.2 tkt now .normalScheduling
            pure (st.1 ∪ (g.dom_info tkt.domid).cpumask, s2))
    ((∅ : Finset Nat), s)
  pure {st.2 with cur_ticket_per_cpu := fun _ => none}

/-- The while loop of update_sched_info that moves every ticket whose
earliest start time has passed from the (sorted) activation queue into the
EDF runnable queue.  The GSBIT_IS_SLEEPING branch of the source is fully
commented out (a no-op); the GSBIT_WAS_WAITING_FOR_EVENT branch clears
that flag before the move. -/
def __move_activated_to_runnable (now : Int) :
    List sched_ticket → List sched_ticket →
    List sched_ticket × List sched_ticket
  | [], runQ => ([], runQ)
  | t :: rest, runQ =>
      if t.earliest_start_time ≤ now then
        let t1 := if t.was_waiting_4_event then
            {t with was_waiting_4_event := false} else t
        __move_activated_to_runnable now rest (__insert_into_runnable_Q t1 runQ)
      else (t :: rest, runQ)

/-- Model of update_sched_info (sched_gang.c lines 1703-1775): update the
current tickets, then (unless now is INFINITY) move due tickets to the
runnable queue, and return the earliest start time at the head of the
activation queue (INFINITY when it is empty). -/
def __update_sched_info (g : gang_globals) (s : sched_info) (now : Int) :
    Option (sched_info × Int) := do
  let s1 ← __update_current_tickets g s now
  if now = INFINITY then
    pure (s1, INFINITY)
  else
    let mv := __move_activated_to_runnable now s1.activation_Q s1.edf_runnable_Q
    let s2 := {s1 with activation_Q := mv.1, edf_runnable_Q := mv.2}
    match mv.1.head? with
    | some ht => pure (s2, ht.earliest_start_time)
    | none => pure (s2, INFINITY)

/-- State threaded through the decision loop of gang_do_schedule, plus the
selected and deferred logs that record which branch each popped ticket
took (the branches are observable through cur_ticket_per_cpu and
activation_Q; the logs merely name the tickets so the theorems can
quantify over them). -/
structure loop_state where
  assigned_cpus : Finset Nat
  cur_ticket_per_cpu : Nat → Option sched_ticket
  activation_Q : List sched_ticket
  end_of_time_slice : Int
  selected : List sched_ticket
  deferred : List sched_ticket

/-- Model of the while loop of gang_do_schedule (sched_gang.c lines
1912-2015).  Tickets are popped from the head of the EDF queue.  A ticket
whose domain CPU mask does not intersect the already-assigned CPUs is
installed as the current ticket of every CPU in the mask with
activated_at set to now, and caps the end of the time slice with
now + remaining_time (INFINITY for an exclusive ticket); otherwise the
potential end of slice tval = deadline - remaining_time (replaced by
now + 1 ms when it is not in the future) caps the slice and the ticket is
re-inserted, unchanged, into the activation queue.  The loop stops when
the assigned set equals the cohort mask.  The debug BUG_ON / PANIC sanity
checks of the source (which do not alter non-crashing executions) are
elided. -/
def scheduleLoop (g : gang_globals) (cohort_mask : Finset Nat) (now : Int) :
    List sched_ticket → loop_state → List sched_ticket × loop_state
  | [], st => ([], st)
  | ticket :: rest, st =>
      let dom_info := g.dom_info ticket.domid
      let st1 :=
        if st.assigned_cpus ∩ dom_info.cpumask = ∅ then
          let t1 := {ticket with activated_at := now}
          let tval := if dom_info.tm_muxing_spec.isNoMuxing then INFINITY
                      else now + ticket.remaining_time
          { assigned_cpus := st.assigned_cpus ∪ dom_info.cpumask,
            cur_ticket_per_cpu := fun c =>
              if c ∈ dom_info.cpumask then some t1 else st.cur_ticket_per_cpu c,
            activation_Q := st.activation_Q,
            end_of_time_slice := min st.end_of_time_slice tval,
            selected := st.selected ++ [t1],
            deferred := st.deferred }
        else
          let tval := ticket.deadline - ticket.remaining_time
          let tval := if tval ≤ now then now + 1000000 else tval
          { st with
            end_of_time_slice := min st.end_of_time_slice tval,
            activation_Q := __insert_into_activation_Q ticket st.activation_Q,
            deferred := st.deferred ++ [ticket] }
      if st1.assigned_cpus = cohort_mask then (rest, st1)
      else scheduleLoop g cohort_mask now rest st1

/-- The VCPU named current on the scheduling CPU: either the idle VCPU or
a guest VCPU together with its scheduling ticket (SCHED_TICKET). -/
structure cur_vcpu_info where
  is_idle : Bool
  ticket : sched_ticket
deriving DecidableEq, Repr

/-- struct task_slice: the dispatched ticket (none = the idle VCPU), the
time budget in ns (-1 = no limit) and the migrated flag. -/
structure task_slice where
  task : Option sched_ticket
  time : Int
  migrated : Bool
deriving DecidableEq, Repr

/-- Full observable outcome of one gang_do_schedule invocation: the local
scheduler state it leaves behind, the returned task_slice, the selected
and deferred logs of the decision loop, and the earliest activation time
it captured. -/
structure sched_decision where
  si : sched_info
  slice : task_slice
  selected : List sched_ticket
  deferred : List sched_ticket
  earliest_actv : Int

/-- Model of gang_do_schedule (sched_gang.c lines 1851-2141).  With no
cohorts (empty pool) it exits immediately to idle with no limit.
Otherwise it updates the queues (capturing earliest_actv), goes idle with
no limit when a tasklet is pending (the goto skips both the decision loop
and the capping of the slice end by earliest_actv), and otherwise runs
the decision loop, caps the end of slice with earliest_actv, rounds it
down to the grain, applies the single-VCPU-yield substitution (which
always yields the idle VCPU because get_substitute_ticket is disabled in
the source), and converts the absolute slice end into a non-negative
duration, with -1 encoding no limit.  Ticket pointer identity with the
ticket of current is modelled by domain-id equality: a local scheduler
holds one ticket per domain.  The clearing of the yield bit on the ticket
of current, a side effect on later invocations only, is not modelled. -/
def gang_do_schedule (g : gang_globals) (s : sched_info) (cpu_id : Nat)
    (now : Int) (tasklet_work_scheduled : Bool) (cur : cur_vcpu_info) :
    Option sched_decision :=
  if g.num_of_cohorts = 0 ∨ g.num_of_muxgroups = 0 then
    some ⟨s, ⟨none, -1, false⟩, [], [], INFINITY⟩
  else
    match __update_sched_info g s now with
    | none => none
    | some (s1, earliest_actv) =>
      if tasklet_work_scheduled then
        some ⟨s1, ⟨none, -1, false⟩, [], [], earliest_actv⟩
      else
        let lp := scheduleLoop g (g.cohorts cpu_id) now s1.edf_runnable_Q
          ⟨∅, s1.cur_ticket_per_cpu, s1.activation_Q, INFINITY, [], []⟩
        let st := lp.2
        let s2 : sched_info := ⟨lp.1, st.activation_Q, st.cur_ticket_per_cpu⟩
        let ticket := st.cur_ticket_per_cpu cpu_id
        let eots := min st.end_of_time_slice earliest_actv
        let eots := if eots < INFINITY then (eots / g.grain) * g.grain else eots
        let ticket :=
          if cur.is_idle then ticket
          else
            match ticket with
            | some t =>
                if t.domid = cur.ticket.domid
                    ∧ ¬ (g.dom_info cur.ticket.domid).tm_muxing_spec.isNoMuxing = true
                    ∧ cur.ticket.single_vcpu_yield = true
                then none
                else some t
            | none => none
        let time := if eots < INFINITY then
            (if eots - now < 0 then 0 else eots - now) else -1
        some ⟨s2, ⟨ticket, time, false⟩, st.selected, st.deferred, earliest_actv⟩

/-- Outcome of the decision loop of gang_do_schedule for one invocation:
the loop starts from the empty assigned set and the current-ticket table
that update_sched_info has just zeroed (the memset at the end of
update_current_tickets), with the runnable queue, activation queue and
INFINITY end of slice as left by step 1 of the algorithm. -/
def gang_decision_state (g : gang_globals) (cohort_mask : Finset Nat)
    (now : Int) (q actv0 : List sched_ticket) (e0 : Int) : loop_state :=
  (scheduleLoop g cohort_mask now q
    ⟨∅, fun _ => none, actv0, e0, [], []⟩).2

/-- The potential end of time slice computed for a deferred (overlapping)
ticket in the decision loop (sched_gang.c lines 1993-2000): the laxity
deadline - remaining_time, replaced by now + 1 ms when it is not in the
future. -/
def deferred_tval (now : Int) (t : sched_ticket) : Int :=
  if t.deadline - t.remaining_time ≤ now then now + 1000000
  else t.deadline - t.remaining_time

/-- gang_pcpu_info_t (sched_gang.c lines 678-683): the per-CPU record
holding the pointer to the local scheduler; pointer nullability is
modelled with Option. -/
structure gang_pcpu_info where
  local_sched : Option sched_info

/-- Model of init_sched_info (sched_gang.c lines 931-939): queues
initialized empty and the current-ticket table zeroed. -/
def __init_sched_info : sched_info :=
  ⟨[], [], fun _ => none⟩

/-- Model of gang_alloc_pdata (sched_gang.c lines 1088-1110) on its
successful path: it allocates the per-CPU record and the local scheduler,
initializes the scheduler and stores the non-null pointer in the
record.  The allocation-failure path (returning NULL) and the idle-VCPU
sanity check are outside the model. -/
def gang_alloc_pdata : gang_pcpu_info :=
  ⟨some __init_sched_info⟩

/-- Model of gang_free_pdata (sched_gang.c lines 1113-1129) as the
sequence of conditions its assertions impose: a NULL argument returns
immediately; otherwise ASSERT(pci->local_sched == NULL) must hold, and
then deinit_sched_info(pci->local_sched, TRUE) requires its argument to
be non-NULL (BUG_ON(s == NULL), sched_gang.c line 948).  The result none
means an assertion or BUG fires before the record is freed. -/
def gang_free_pdata (spc : Option gang_pcpu_info) : Option Unit :=
  match spc with
  | none => some ()
  | some pci =>
      if pci.local_sched.isNone then
        match pci.local_sched with
        | some _ => some ()
        | none => none
      else none

/-!
Cohort topology computation (sched_gang.c).  The C code keeps the cohorts
in a fixed-size array with a live count; the merge loop closes holes by
shifting entries down, which leaves the previous last live entry behind in
the newly vacated slot, and the code does not clear such slots, while the
new-cohort branch of update_cohorts ORs the domain mask into the next
slot beyond the live region.  The model therefore represents the array as
the list of live entries plus the list of stale slot contents that follow
them (a freshly allocated array is zeroed, so slots beyond the stale list
read as the empty mask).
-/

/-- The intersect-and-expand scan of update_cohorts (sched_gang.c lines
2583-2598): find the first live cohort whose mask intersects the domain
mask and, unless the domain mask is already a subset, expand that cohort
by union; none when no live cohort intersects. -/
def __cohort_scan (mask : Finset Nat) :
    List (Finset Nat) → Option (List (Finset Nat))
  | [] => none
  | c :: rest =>
      if ¬ (mask ∩ c = ∅) then
        some ((if mask ⊆ c then c else c ∪ mask) :: rest)
      else
        Option.map (fun l => c :: l) (__cohort_scan mask rest)

/-- Helper of the merge loop: remove the first later cohort intersecting
the cohort c, returning it and the remaining later cohorts in order (the
shift-down of sched_gang.c lines 2624-2628). -/
def __extract_intersecting (c : Finset Nat) :
    List (Finset Nat) → Option (Finset Nat × List (Finset Nat))
  | [] => none
  | d :: ds =>
      if ¬ (c ∩ d = ∅) then some (d, ds)
      else
        Option.map (fun p => (p.1, d :: p.2)) (__extract_intersecting c ds)

/-- One step of the merge loop of update_cohorts (sched_gang.c lines
2613-2638): find the scan-order-first pair of intersecting live cohorts,
union the later one into the earlier one and close the hole; none when no
two live cohorts intersect (the loop has reached its fixed point). -/
def __merge_once : List (Finset Nat) → Option (List (Finset Nat))
  | [] => none
  | c :: rest =>
      match __extract_intersecting c rest with
      | some p => some ((c ∪ p.1) :: p.2)
      | none => Option.map (fun l => c :: l) (__merge_once rest)

/-- The cohorts array: live entries 0..num_of_cohorts-1 followed by the
stale contents that merges left beyond the live region. -/
structure cohort_array where
  live : List (Finset Nat)
  stale : List (Finset Nat)

/-- Insert step of update_cohorts: run the scan; when no live cohort
intersects, open a new cohort by OR-ing the domain mask into the next
array slot, whose current contents are the first stale entry (or the
zeroed mask on a slot never written). -/
def __cohort_insert (mask : Finset Nat) (ca : cohort_array) : cohort_array :=
  match __cohort_scan mask ca.live with
  | some live2 => ⟨live2, ca.stale⟩
  | none => ⟨ca.live ++ [ca.stale.headD ∅ ∪ mask], ca.stale.tail⟩

/-- One merge applied to the array: the live region shrinks by one and the
vacated slot at its old end retains the previous last live entry. -/
def __merge_once_array (ca : cohort_array) : Option cohort_array :=
  match __merge_once ca.live with
  | some live2 => some ⟨live2, ca.live.getLastD ∅ :: ca.stale⟩
  | none => none

/-- The merge loop run to its fixed point; each merge shortens the live
region by one entry, so the live length is sufficient fuel. -/
def __merge_cohorts : Nat → cohort_array → cohort_array
  | 0, ca => ca
  | n + 1, ca =>
      match __merge_once_array ca with
      | some ca2 => __merge_cohorts n ca2
      | none => ca

/-- Model of update_cohorts (sched_gang.c lines 2566-2639): insert the
domain CPU mask, then merge overlapping cohorts until none are left. -/
def __update_cohorts (mask : Finset Nat) (ca : cohort_array) : cohort_array :=
  __merge_cohorts (__cohort_insert mask ca).live.length (__cohort_insert mask ca)

/-- The cohort part of populate_cohorts_and_muxgroups (sched_gang.c lines
2715-2722): fold update_cohorts over the admitted domain CPU masks,
starting from the freshly zeroed array. -/
def __populate_cohorts (doms : List (Finset Nat)) : cohort_array :=
  doms.foldl (fun ca m => __update_cohorts m ca) ⟨[], []⟩

/-!
Global configuration interface (gang_adjust_global, sched_gang.c lines
3468-3920).  The pool is modelled as the list of (domid, canonical domain
state) pairs in domain-list iteration order; the caller-context checks
(DOM0, pool-0 CPU, the single-permit busy counter) and the cross-CPU
barrier protocol are outside the model, which captures the data path:
validation, the overlay of the incoming entries over the current records,
the installation of the overlay into the canonical records by the
designated CPU (update_local_sched_v0 lines 2959-2966), and the getinfo
snapshot.
-/

/-- gang_sched_dom_conf_t: one wire entry of the configuration blob.  The
CPU bitmap is modelled as the set of CPU ids it encodes (the bitmap
canonicalizes the order of CPU ids inside a mask). -/
structure gang_sched_dom_conf where
  domid : Int
  cpumap : Finset Nat
  gang_sched_policy : gang_sched_policy
deriving DecidableEq

/-- Canonical per-domain state held by the hypervisor: the VCPU count
(equal to max_vcpus whenever validation passes) and the gang_dom_info
fields that putinfo writes and getinfo reads. -/
structure dom_state where
  nVcpus : Nat
  cpumask : Finset Nat
  tm_muxing_spec : gang_sched_policy
deriving DecidableEq

/-- Validation of one putinfo entry (sched_gang.c lines 3586-3719):
positive domain id, the domain exists (in the right pool), its VCPU count
equals max_vcpus and fits in the pool, the requested CPU map is a subset
of the pool CPUs with cardinality equal to the VCPU count, and the policy
type and parameters validate. -/
def __validate_dom_entry (rl : Int) (pool : List (Int × dom_state))
    (pool_cpus : Finset Nat) (e : gang_sched_dom_conf) : Bool :=
  decide (0 < e.domid) &&
  (match pool.find? (fun pr => pr.1 == e.domid) with
   | none => false
   | some pr =>
       decide (pr.2.nVcpus ≤ pool_cpus.card) &&
       decide (e.cpumap ⊆ pool_cpus) &&
       decide (e.cpumap.card = pr.2.nVcpus) &&
       __validate_gang_sched_policy rl e.gang_sched_policy)

/-- The putinfo validation phase (sched_gang.c lines 3558-3719): between 1
and GANG_SCHED_MAX_DOMAINS entries, pairwise distinct domain ids, and
every entry valid.  The schedulability check validate_resource_allocation
only sorts and returns TRUE in the source (its body is a TODO), so no
request is rejected for capacity. -/
def __putinfo_validate (rl : Int) (max_doms : Nat)
    (pool : List (Int × dom_state)) (pool_cpus : Finset Nat)
    (entries : List gang_sched_dom_conf) : Bool :=
  decide (1 ≤ entries.length) &&
  decide (entries.length ≤ max_doms) &&
  decide ((entries.map (fun e => e.domid)).Nodup) &&
  entries.all (__validate_dom_entry rl pool pool_cpus)

/-- The overlay of update_domain_infos (sched_gang.c lines 2344-2399) as
installed into the canonical records by the designated CPU
(update_local_sched_v0 lines 2959-2966): every domain named by an entry
receives the CPU mask and policy of that entry; all other domains keep
their current state. -/
def __overlay_entries (entries : List gang_sched_dom_conf)
    (pool : List (Int × dom_state)) : List (Int × dom_state) :=
  pool.map fun pr =>
    match entries.find? (fun e => e.domid == pr.1) with
    | some e => (pr.1, ⟨pr.2.nVcpus, e.cpumap, e.gang_sched_policy⟩)
    | none => pr

/-- The XEN_SYSCTL_SCHEDOP_putinfo command of gang_adjust_global: validate
the request and install the overlay; a rejected request leaves the pool
untouched (none). -/
def gang_adjust_putinfo (rl : Int) (max_doms : Nat)
    (pool : List (Int × dom_state)) (pool_cpus : Finset Nat)
    (entries : List gang_sched_dom_conf) :
    Option (List (Int × dom_state)) :=
  if __putinfo_validate rl max_doms pool pool_cpus entries then
    some (__overlay_entries entries pool)
  else none

/-- The XEN_SYSCTL_SCHEDOP_getinfo command of gang_adjust_global, which
copies what get_all_domain_infos (sched_gang.c lines 2309-2332) collects:
the (domid, cpumask, policy) triple of every pool domain, in domain-list
iteration order. -/
def gang_adjust_getinfo (pool : List (Int × dom_state)) :
    List (Int × Finset Nat × gang_sched_policy) :=
  pool.map fun pr => (pr.1, pr.2.cpumask, pr.2.tm_muxing_spec)

/-- A wire entry viewed as the triple that getinfo returns. -/
def conf_triple (e : gang_sched_dom_conf) :
    Int × Finset Nat × gang_sched_policy :=
  (e.domid, e.cpumap, e.gang_sched_policy)

/-- Unfolding of charge_cpus by one CPU for a non-best-effort domain. -/
lemma charge_cpus_cons_nonBE (u : F64) (c : Nat) (rest : List Nat)
    (st : (Nat → F64) × (Nat → Bool)) :
    charge_cpus false u (c :: rest) st
      = charge_cpus false u rest
          (Function.update st.1 c (fadd (st.1 c) u), st.2) := by
  simp [charge_cpus]

/-- Unfolding of charge_cpus by one CPU for a best-effort domain. -/
lemma charge_cpus_cons_BE (u : F64) (c : Nat) (rest : List Nat)
    (st : (Nat → F64) × (Nat → Bool)) :
    charge_cpus true u (c :: rest) st
      = charge_cpus true u rest
          (if st.2 c then st
           else (Function.update st.1 c (fadd (st.1 c) u),
                 Function.update st.2 c true)) := by
  by_cases h : st.2 c = true <;> simp [charge_cpus, h]

/-- A non-best-effort domain leaves the bedom_considered flags untouched. -/
lemma charge_cpus_nonBE_flags (u : F64) (cpus : List Nat)
    (st : (Nat → F64) × (Nat → Bool)) :
    (charge_cpus false u cpus st).2 = st.2 := by
  induction cpus generalizing st with
  | nil => rfl
  | cons c rest ih => rw [charge_cpus_cons_nonBE, ih]

/-- A non-best-effort domain whose CPU list has no duplicates adds its
utilisation (one double addition) to exactly the CPUs it lists. -/
lemma charge_cpus_nonBE_total (u : F64) (cpus : List Nat)
    (st : (Nat → F64) × (Nat → Bool)) (hnd : cpus.Nodup) (x : Nat) :
    (charge_cpus false u cpus st).1 x
      = if x ∈ cpus then fadd (st.1 x) u else st.1 x := by
  induction cpus generalizing st with
  | nil => simp [charge_cpus]
  | cons c rest ih =>
      rw [List.nodup_cons] at hnd
      rw [charge_cpus_cons_nonBE, ih _ hnd.2]
      by_cases hx : x = c
      · subst hx
        simp [hnd.1, Function.update_same]
      · simp [Function.update_noteq hx, hx]

/-- A best-effort domain sets the bedom_considered flag of every CPU it
lists. -/
lemma charge_cpus_BE_flags (u : F64) (cpus : List Nat)
    (st : (Nat → F64) × (Nat → Bool)) (x : Nat) :
    (charge_cpus true u cpus st).2 x = (st.2 x || decide (x ∈ cpus)) := by
  induction cpus generalizing st with
  | nil => simp [charge_cpus]
  | cons c rest ih =>
      rw [charge_cpus_cons_BE]
      by_cases hc : st.2 c = true
      · rw [if_pos hc, ih]
        by_cases hx : x = c
        · subst hx
          simp [hc]
        · simp [hx]
      · rw [if_neg hc, ih]
        by_cases hx : x = c
        · subst hx
          simp [Function.update_same]
        · simp [Function.update_noteq hx, hx]

/-- A best-effort domain charges exactly the listed CPUs whose flag was
still clear. -/
lemma charge_cpus_BE_total (u : F64) (cpus : List Nat)
    (st : (Nat → F64) × (Nat → Bool)) (x : Nat) :
    (charge_cpus true u cpus st).1 x
      = if x ∈ cpus ∧ st.2 x = false then fadd (st.1 x) u else st.1 x := by
  induction cpus generalizing st with
  | nil => simp [charge_cpus]
  | cons c rest ih =>
      rw [charge_cpus_cons_BE]
      by_cases hc : st.2 c = true
      · rw [if_pos hc, ih]
        by_cases hx : x = c
        · subst hx
          simp [hc]
        · simp [hx]
      · rw [if_neg hc, ih]
        by_cases hx : x = c
        · subst hx
          have hf : st.2 x = false := by
            cases h : st.2 x
            · rfl
            · exact absurd h hc
          simp [Function.update_same, hf]
        · simp [Function.update_noteq hx, hx]

/-- For a best-effort policy dom_util is the shared best-effort
utilisation. -/
lemma dom_util_of_isBE (bu : F64) (p : gang_sched_policy)
    (h : p.isBeMuxing = true) : dom_util bu p = bu := by
  cases p <;> first | rfl | simp [gang_sched_policy.isBeMuxing] at h

/-- Bridge between the charging loop of are_schedulable and the per-CPU
contribution list: starting from any state, the accumulated double in
slot x is the left fold of binary64 addition over the contributions of x,
seeded with the value already in the slot; no property of the rounding is
needed, only the loop structure. -/
lemma fold_charge_contribs (bu : F64) (arr : List gs_dominfo)
    (hnd : ∀ di ∈ arr, di.cpus.Nodup) (x : Nat)
    (st : (Nat → F64) × (Nat → Bool)) :
    (arr.foldl
      (fun st di =>
        charge_cpus di.gang_sched_policy.isBeMuxing
          (dom_util bu di.gang_sched_policy) di.cpus st) st).1 x
    = List.foldl fadd (st.1 x) (cpu_contribs bu x arr (st.2 x)) := by
  induction arr generalizing st with
  | nil => rfl
  | cons di rest ih =>
      have hdi : di.cpus.Nodup := hnd di (List.mem_cons_self di rest)
      have hrest : ∀ d ∈ rest, d.cpus.Nodup := fun d hd =>
        hnd d (List.mem_cons_of_mem di hd)
      rw [List.foldl_cons]
      cases hbe : di.gang_sched_policy.isBeMuxing with
      | true =>
          rw [dom_util_of_isBE bu _ hbe]
          rw [ih hrest]
          rw [charge_cpus_BE_total, charge_cpus_BE_flags]
          simp only [cpu_contribs, hbe, if_true]
          by_cases hx : x ∈ di.cpus
          · cases hf : st.2 x with
            | true => simp [hx, hf]
            | false => simp [hx, hf]
          · simp [hx]
      | false =>
          rw [ih hrest]
          rw [charge_cpus_nonBE_total _ _ _ hdi, charge_cpus_nonBE_flags]
          simp only [cpu_contribs, hbe]
          by_cases hx : x ∈ di.cpus
          · simp [hx]
          · simp [hx]

/-- x <= y holds for nonnegative doubles exactly when y < x does not:
both comparisons scale the mantissas to the common smaller exponent. -/
lemma F64.ble_iff_not_blt (x y : F64) :
    x.ble y = true ↔ ¬ F64.blt y x = true := by
  unfold F64.ble F64.blt
  rw [min_comm y.exp x.exp]
  simp [not_lt]

set_option maxRecDepth 40000 in
/-- C2 counterexample: three time-triggered domains on CPU 0 with exact
utilisations 1/2, 1/2 and 10^-17.  The input passes validation and
are_schedulable reports pass (returns 0), because in binary64 arithmetic
0.5 + 0.5 = 1.0 and adding the rounded 10^-17 (which is below half an
ulp of 1.0) rounds back to 1.0, so the computed total is not above 1.0;
but the exact utilisation of CPU 0 is 1 + 10^-17 > 1, so the claim as
stated (pass iff every exact CPU utilisation is at most 1) is false of
the program. -/
theorem c2_counterexample :
    __validate_dominfos
      [⟨0, [0], .ttMuxing ⟨0, 2, 1, false⟩⟩,
       ⟨1, [0], .ttMuxing ⟨0, 2, 1, false⟩⟩,
       ⟨2, [0], .ttMuxing ⟨0, 100000000000000000, 1, false⟩⟩] 1 = true
    ∧ are_schedulable
      [⟨0, [0], .ttMuxing ⟨0, 2, 1, false⟩⟩,
       ⟨1, [0], .ttMuxing ⟨0, 2, 1, false⟩⟩,
       ⟨2, [0], .ttMuxing ⟨0, 100000000000000000, 1, false⟩⟩] 10 100 1 = 0
    ∧ ¬ spec_total_util
      [⟨0, [0], .ttMuxing ⟨0, 2, 1, false⟩⟩,
       ⟨1, [0], .ttMuxing ⟨0, 2, 1, false⟩⟩,
       ⟨2, [0], .ttMuxing ⟨0, 100000000000000000, 1, false⟩⟩] 10 0 ≤ 1 := by
  refine ⟨by decide, by decide, ?_⟩
  norm_num [spec_total_util, exact_dom_util, gang_sched_policy.isBeMuxing,
    List.filter, List.any]

/-- C2: schedulability test, amended.  Given domain infos that pass input
validation, with a non-zero CPU count, a non-zero best-effort basic
period and a best-effort reserve below 100, are_schedulable reports pass
(returns 0) if and only if for every CPU the total utilisation COMPUTED
IN IEEE binary64 arithmetic, one rounded addition per contribution in
domain order, is at most 1.0 under the IEEE comparison; the contributions
are 1.0 for an exclusive domain, the double quotient active_time / period
for TT and ET, and the double quotient be_reserve / 100 at most once per
CPU for best-effort domains; and with be_reserve = 100 the test fails
(returns 1) immediately.  The Nodup hypothesis reflects that a domain
lists each of its CPUs once (the C code asserts this while building its
cpu2dom map). -/
theorem c2_schedulable_iff_double_util
    (arr : List gs_dominfo) (be_reserve be_basic_period cpu_count : Nat)
    (hnd : ∀ di ∈ arr, di.cpus.Nodup) (hcc : cpu_count ≠ 0) :
    (be_reserve = 100 →
        are_schedulable arr be_reserve be_basic_period cpu_count = 1)
    ∧ (be_reserve < 100 → be_basic_period ≠ 0 →
        __validate_dominfos arr cpu_count = true →
        (are_schedulable arr be_reserve be_basic_period cpu_count = 0 ↔
          ∀ c < cpu_count,
            (double_total_util arr be_reserve c).ble f64one = true)) := by
  constructor
  · intro h100
    unfold are_schedulable
    rw [if_neg hcc, if_pos h100]
  · intro hlt hbbp hval
    have htot : ∀ c : Nat,
        (arr.foldl
          (fun st di =>
            charge_cpus di.gang_sched_policy.isBeMuxing
              (dom_util (fdiv (f64ofNat be_reserve) (f64ofNat 100))
                di.gang_sched_policy) di.cpus st)
          ((fun _ => f64zero), (fun _ => false))).1 c
        = double_total_util arr be_reserve c := by
      intro c
      rw [fold_charge_contribs _ _ hnd]
      rfl
    unfold are_schedulable
    rw [if_neg hcc, if_neg (by omega : ¬ be_reserve = 100),
        if_neg (by omega : ¬ 100 < be_reserve), if_neg hbbp,
        if_neg (by simp [hval])]
    constructor
    · intro h0 c hc
      rw [F64.ble_iff_not_blt]
      intro hblt
      have hany : (List.range cpu_count).any (fun c =>
          F64.blt f64one ((arr.foldl
            (fun st di =>
              charge_cpus di.gang_sched_policy.isBeMuxing
                (dom_util (fdiv (f64ofNat be_reserve) (f64ofNat 100))
                  di.gang_sched_policy) di.cpus st)
            ((fun _ => f64zero), (fun _ => false))).1 c)) = true := by
        refine List.any_eq_true.mpr ⟨c, List.mem_range.mpr hc, ?_⟩
        rw [htot c]
        exact hblt
      rw [if_pos hany] at h0
      exact absurd h0 (by decide)
    · intro hall
      rw [if_neg ?hneg]
      case hneg =>
        intro hany
        rcases List.any_eq_true.mp hany with ⟨c, hcmem, hcgt⟩
        rw [htot c] at hcgt
        exact absurd hcgt
          ((F64.ble_iff_not_blt _ _).mp (hall c (List.mem_range.mp hcmem)))

/-- C2 witness: the first unit-test scenario of the tool (one
time-triggered domain with period 100 and active time 50 on CPUs 0..7,
be_reserve 10, be_basic_period 100, cpu_count 8) is reported
schedulable. -/
theorem c2_schedulable_witness :
    are_schedulable
      [⟨0, [0, 1, 2, 3, 4, 5, 6, 7], .ttMuxing ⟨0, 100, 50, false⟩⟩]
      10 100 8 = 0 :=
  ((c2_schedulable_iff_double_util
      [⟨0, [0, 1, 2, 3, 4, 5, 6, 7], .ttMuxing ⟨0, 100, 50, false⟩⟩]
      10 100 8 (by decide) (by decide)).2
    (by decide) (by decide) (by decide)).mpr (by decide)

/-- C4: boundary of TT/ET parameter validation.  The hypervisor-side
validators only reject period < active_time, so a record with
active_time = period is ACCEPTED by them, although the event-triggered
parameter documentation in gang_sched_policies.h requires
active_time < period and the control-tool validator rejects equality.
This theorem evaluates both validators at the failing input (an ET and a
TT record with period = active_time = 100 ms, in ns, under the default
1000 us time grain) and at the boundary input active_time = period minus
one grain, which both sides accept. -/
theorem c4_tt_et_validation_boundary :
    __validate_et_muxing_params 1000
        ⟨0, 100000000, 100000000, false⟩ = true
    ∧ __validate_tt_muxing_params 1000
        ⟨0, 100000000, 100000000, false⟩ = true
    ∧ __validate_muxing_policy
        (.etMuxing ⟨0, 100000000, 100000000, false⟩) = false
    ∧ __validate_muxing_policy
        (.ttMuxing ⟨0, 100000000, 100000000, false⟩) = false
    ∧ __validate_et_muxing_params 1000
        ⟨0, 100000000, 99000000, false⟩ = true
    ∧ __validate_muxing_policy
        (.etMuxing ⟨0, 100000000, 99000000, false⟩) = true := by
  decide

/-- C5 counterexample: the hypervisor-side best-effort validator named by
the claim accepts a record with weight = 0 (its body is return TRUE), so
the claim that validation rejects weight = 0 is false for it. -/
theorem c5_counterexample :
    __validate_be_muxing_params ⟨0, 0, false⟩ = true
    ∧ __validate_gang_sched_policy 1000 (.beMuxing ⟨0, 0, false⟩) = true := by
  decide

/-- C5 amended: the hypervisor-side validate_be_muxing_params accepts every
best-effort record (weight included), while the control-tool validator
validate_muxing_policy accepts a best-effort record with a finite start
time iff its weight is non-zero; in particular it rejects weight = 0 and
accepts weight = 1. -/
theorem c5_be_weight_validation
    (p : be_muxing_params) (hfrom : p.fromT ≠ TOOL_INFINITY) :
    __validate_be_muxing_params p = true
    ∧ (__validate_muxing_policy (.beMuxing p) = true ↔ p.weight ≠ 0) := by
  refine ⟨rfl, ?_⟩
  simp only [__validate_muxing_policy, if_neg hfrom]
  by_cases hw : p.weight = 0
  · simp [hw]
  · simp [hw]

/-- C5 witness: a best-effort record with weight 1 and start time 0 is
accepted by the control-tool validator and, vacuously, by the
hypervisor-side validator. -/
theorem c5_witness :
    __validate_be_muxing_params ⟨0, 1, false⟩ = true
    ∧ (__validate_muxing_policy (.beMuxing ⟨0, 1, false⟩) = true ↔
        (1 : Nat) ≠ 0) :=
  c5_be_weight_validation ⟨0, 1, false⟩ (by decide)

/-- The clamping in update_times_in_ticket (if diff < 0 then 0 else diff)
equals the specification form max 0 diff. -/
lemma clamp_eq_max (d : Int) : (if d < 0 then 0 else d) = max 0 d := by
  rcases lt_or_le d 0 with h | h
  · rw [if_pos h, max_eq_left (le_of_lt h)]
  · rw [if_neg (not_lt.mpr h), max_eq_right h]

/-- C6: ticket time update and re-arm on the normal-scheduling path of
update_times_in_ticket.  An exclusive ticket skips all time arithmetic
and is inserted into the activation queue directly.  For a multiplexed
ticket the update is rejected (the kernel BUGs) exactly when
now - activated_at < -10 us; otherwise remaining_time decreases by
max(0, now - activated_at) and, when the result drops below the 10 us
margin, the ticket is re-armed per policy before being inserted into the
activation queue: TT advances earliest_start_time and deadline by period
and resets remaining_time to active_time; ET sets earliest_start_time to
floor(now / grain) * grain, advances deadline by period and resets
remaining_time to active_time; BE sets earliest_start_time to
floor(now / grain) * grain, advances deadline by
be_doms_in_cohort * period_4_be_doms and resets remaining_time to
quantum_4_be_doms. -/
theorem c6_update_times_in_ticket (g : gang_globals) (s : sched_info)
    (tkt : sched_ticket) (now : Int) :
    ((g.dom_info tkt.domid).tm_muxing_spec.isNoMuxing = true →
        __update_times_in_ticket g s tkt now .normalScheduling
          = some {s with activation_Q :=
              __insert_into_activation_Q tkt s.activation_Q})
    ∧ ((g.dom_info tkt.domid).tm_muxing_spec.isNoMuxing = false →
        (__update_times_in_ticket g s tkt now .normalScheduling = none ↔
          now - tkt.activated_at < MIN_NEGATIVE_DIFF))
    ∧ (∀ p, (g.dom_info tkt.domid).tm_muxing_spec = .ttMuxing p →
        MIN_NEGATIVE_DIFF ≤ now - tkt.activated_at →
        __update_times_in_ticket g s tkt now .normalScheduling
          = some {s with activation_Q :=
              (__insert_into_activation_Q
               (if tkt.remaining_time - max 0 (now - tkt.activated_at) < MARGIN
               then
                { tkt with
                  earliest_start_time :=
                    tkt.earliest_start_time + (p.period : Int),
                  deadline := tkt.deadline + (p.period : Int),
                  remaining_time := (p.active_time : Int) }
               else
                { tkt with remaining_time :=
                    tkt.remaining_time - max 0 (now - tkt.activated_at) })
               s.activation_Q)})
    ∧ (∀ p, (g.dom_info tkt.domid).tm_muxing_spec = .etMuxing p →
        MIN_NEGATIVE_DIFF ≤ now - tkt.activated_at →
        __update_times_in_ticket g s tkt now .normalScheduling
          = some {s with activation_Q :=
              (__insert_into_activation_Q
               (if tkt.remaining_time - max 0 (now - tkt.activated_at) < MARGIN
               then
                { tkt with
                  earliest_start_time := (now / g.grain) * g.grain,
                  deadline := tkt.deadline + (p.period : Int),
                  remaining_time := (p.active_time : Int) }
               else
                { tkt with remaining_time :=
                    tkt.remaining_time - max 0 (now - tkt.activated_at) })
               s.activation_Q)})
    ∧ (∀ p, (g.dom_info tkt.domid).tm_muxing_spec = .beMuxing p →
        MIN_NEGATIVE_DIFF ≤ now - tkt.activated_at →
        __update_times_in_ticket g s tkt now .normalScheduling
          = some {s with activation_Q :=
              (__insert_into_activation_Q
               (if tkt.remaining_time - max 0 (now - tkt.activated_at) < MARGIN
               then
                { tkt with
                  earliest_start_time := (now / g.grain) * g.grain,
                  deadline := tkt.deadline
                    + g.be_doms_in_cohort (g.dom_info tkt.domid).cohort
                        * g.period_4_be_doms,
                  remaining_time := g.quantum_4_be_doms }
               else
                { tkt with remaining_time :=
                    tkt.remaining_time - max 0 (now - tkt.activated_at) })
               s.activation_Q)}) := by
  refine ⟨?_, ?_, ?_, ?_, ?_⟩
  · intro h
    simp [__update_times_in_ticket, h]
  · intro h
    simp only [__update_times_in_ticket, h, Bool.false_eq_true, if_false]
    constructor
    · intro hres
      by_contra hlt
      rw [if_neg hlt] at hres
      exact Option.noConfusion hres
    · intro hlt
      rw [if_pos hlt]
  · intro p hp hge
    have hnm : (g.dom_info tkt.domid).tm_muxing_spec.isNoMuxing = false := by
      rw [hp]; rfl
    simp only [__update_times_in_ticket, hnm, Bool.false_eq_true, if_false,
      if_neg (not_lt.mpr hge), hp, clamp_eq_max]
    rfl
  · intro p hp hge
    have hnm : (g.dom_info tkt.domid).tm_muxing_spec.isNoMuxing = false := by
      rw [hp]; rfl
    simp only [__update_times_in_ticket, hnm, Bool.false_eq_true, if_false,
      if_neg (not_lt.mpr hge), hp, clamp_eq_max]
    rfl
  · intro p hp hge
    have hnm : (g.dom_info tkt.domid).tm_muxing_spec.isNoMuxing = false := by
      rw [hp]; rfl
    simp only [__update_times_in_ticket, hnm, Bool.false_eq_true, if_false,
      if_neg (not_lt.mpr hge), hp, clamp_eq_max]
    rfl

/-- C6 witness: a time-triggered ticket (period 100 ms, active time 50 ms)
whose remaining time 40 us is exhausted by a 50 us activation is re-armed:
earliest start time and deadline advance by one period and the remaining
time is reset to the active time, and the ticket lands in the activation
queue. -/
theorem c6_witness :
    __update_times_in_ticket
      ⟨fun _ => ⟨∅, .ttMuxing ⟨0, 100000000, 50000000, false⟩, 0⟩,
        1000, 100000000, 10000000, fun _ => 0, fun _ => ∅, 1, 1, 2⟩
      ⟨[], [], fun _ => none⟩
      ⟨0, 0, 100000000, 40000, 0, false, false, false⟩
      50000 .normalScheduling
      = some ⟨[], [⟨0, 100000000, 200000000, 50000000, 0, false, false, false⟩],
          fun _ => none⟩ := by
  refine Eq.trans
    ((c6_update_times_in_ticket
      ⟨fun _ => ⟨∅, .ttMuxing ⟨0, 100000000, 50000000, false⟩, 0⟩,
        1000, 100000000, 10000000, fun _ => 0, fun _ => ∅, 1, 1, 2⟩
      ⟨[], [], fun _ => none⟩
      ⟨0, 0, 100000000, 40000, 0, false, false, false⟩
      50000).2.2.1 ⟨0, 100000000, 50000000, false⟩ rfl (by decide)) ?_
  norm_num [__insert_into_activation_Q, MARGIN]

/-- Invariant of the decision loop: selected tickets have their whole CPU
mask inside the assigned set and installed in the current-ticket table,
only selected tickets appear in the table, and the masks of the selected
tickets are pairwise disjoint.  Every loop iteration preserves all four
properties. -/
lemma scheduleLoop_invariant (g : gang_globals) (cohort_mask : Finset Nat)
    (now : Int) (q : List sched_ticket) (st : loop_state)
    (hsub : ∀ t ∈ st.selected,
      (g.dom_info t.domid).cpumask ⊆ st.assigned_cpus)
    (hcur : ∀ t ∈ st.selected, ∀ c ∈ (g.dom_info t.domid).cpumask,
      st.cur_ticket_per_cpu c = some t)
    (honly : ∀ c t, st.cur_ticket_per_cpu c = some t → t ∈ st.selected)
    (hpw : st.selected.Pairwise (fun a b =>
      Disjoint (g.dom_info a.domid).cpumask (g.dom_info b.domid).cpumask)) :
    (∀ t ∈ (scheduleLoop g cohort_mask now q st).2.selected,
      (g.dom_info t.domid).cpumask
        ⊆ (scheduleLoop g cohort_mask now q st).2.assigned_cpus)
    ∧ (∀ t ∈ (scheduleLoop g cohort_mask now q st).2.selected,
        ∀ c ∈ (g.dom_info t.domid).cpumask,
          (scheduleLoop g cohort_mask now q st).2.cur_ticket_per_cpu c = some t)
    ∧ (∀ c t,
        (scheduleLoop g cohort_mask now q st).2.cur_ticket_per_cpu c = some t →
          t ∈ (scheduleLoop g cohort_mask now q st).2.selected)
    ∧ (scheduleLoop g cohort_mask now q st).2.selected.Pairwise (fun a b =>
        Disjoint (g.dom_info a.domid).cpumask (g.dom_info b.domid).cpumask) := by
  induction q generalizing st with
  | nil => exact ⟨hsub, hcur, honly, hpw⟩
  | cons ticket rest ih =>
      rw [scheduleLoop]
      by_cases hint : st.assigned_cpus ∩ (g.dom_info ticket.domid).cpumask = ∅
      · -- the ticket is selected
        rw [if_pos hint]
        set t1 : sched_ticket := {ticket with activated_at := now} with ht1
        have ht1dom : t1.domid = ticket.domid := rfl
        set st1 : loop_state :=
          { assigned_cpus := st.assigned_cpus ∪ (g.dom_info ticket.domid).cpumask,
            cur_ticket_per_cpu := fun c =>
              if c ∈ (g.dom_info ticket.domid).cpumask then some t1
              else st.cur_ticket_per_cpu c,
            activation_Q := st.activation_Q,
            end_of_time_slice := min st.end_of_time_slice
              (if (g.dom_info ticket.domid).tm_muxing_spec.isNoMuxing then INFINITY
               else now + ticket.remaining_time),
            selected := st.selected ++ [t1],
            deferred := st.deferred } with hst1
        have hdisj : ∀ t ∈ st.selected,
            Disjoint (g.dom_info t.domid).cpumask
              (g.dom_info ticket.domid).cpumask := by
          intro t ht
          rw [Finset.disjoint_left]
          intro a ha hamem
          have : a ∈ st.assigned_cpus ∩ (g.dom_info ticket.domid).cpumask :=
            Finset.mem_inter.mpr ⟨hsub t ht ha, hamem⟩
          rw [hint] at this
          exact absurd this (Finset.not_mem_empty a)
        have hnotin : ∀ t ∈ st.selected, ∀ c ∈ (g.dom_info t.domid).cpumask,
            c ∉ (g.dom_info ticket.domid).cpumask := by
          intro t ht c hc
          exact Finset.disjoint_left.mp (hdisj t ht) hc
        have hsub1 : ∀ t ∈ st1.selected,
            (g.dom_info t.domid).cpumask ⊆ st1.assigned_cpus := by
          intro t ht
          rcases List.mem_append.mp ht with h | h
          · exact (hsub t h).trans Finset.subset_union_left
          · rcases List.mem_singleton.mp h with rfl
            rw [ht1dom]
            exact Finset.subset_union_right
        have hcur1 : ∀ t ∈ st1.selected, ∀ c ∈ (g.dom_info t.domid).cpumask,
            st1.cur_ticket_per_cpu c = some t := by
          intro t ht c hc
          rcases List.mem_append.mp ht with h | h
          · show (if c ∈ (g.dom_info ticket.domid).cpumask then some t1
              else st.cur_ticket_per_cpu c) = some t
            rw [if_neg (hnotin t h c hc)]
            exact hcur t h c hc
          · rcases List.mem_singleton.mp h with rfl
            rw [ht1dom] at hc
            show (if c ∈ (g.dom_info ticket.domid).cpumask then some t1
              else st.cur_ticket_per_cpu c) = some t1
            rw [if_pos hc]
        have honly1 : ∀ c t, st1.cur_ticket_per_cpu c = some t →
            t ∈ st1.selected := by
          intro c t hct
          by_cases hc : c ∈ (g.dom_info ticket.domid).cpumask
          · have : some t1 = some t := by
              rw [← hct]
              show some t1 = if c ∈ (g.dom_info ticket.domid).cpumask
                then some t1 else st.cur_ticket_per_cpu c
              rw [if_pos hc]
            rcases Option.some.injEq t1 t ▸ this with rfl
            exact List.mem_append.mpr (Or.inr (List.mem_singleton.mpr rfl))
          · have : st.cur_ticket_per_cpu c = some t := by
              rw [← hct]
              show st.cur_ticket_per_cpu c
                = if c ∈ (g.dom_info ticket.domid).cpumask
                  then some t1 else st.cur_ticket_per_cpu c
              rw [if_neg hc]
            exact List.mem_append.mpr (Or.inl (honly c t this))
        have hpw1 : st1.selected.Pairwise (fun a b =>
            Disjoint (g.dom_info a.domid).cpumask (g.dom_info b.domid).cpumask) := by
          refine List.pairwise_append.mpr ⟨hpw, List.pairwise_singleton _ _, ?_⟩
          intro a ha b hb
          rcases List.mem_singleton.mp hb with rfl
          rw [ht1dom]
          exact hdisj a ha
        by_cases hbreak : st1.assigned_cpus = cohort_mask
        · rw [if_pos hbreak]
          exact ⟨hsub1, hcur1, honly1, hpw1⟩
        · rw [if_neg hbreak]
          exact ih st1 hsub1 hcur1 honly1 hpw1
      · -- the ticket is deferred; selected set, assigned set and the
        -- current-ticket table are unchanged
        rw [if_neg hint]
        set st1 : loop_state :=
          { st with
            end_of_time_slice := min st.end_of_time_slice
              (if ticket.deadline - ticket.remaining_time ≤ now then now + 1000000
               else ticket.deadline - ticket.remaining_time),
            activation_Q := __insert_into_activation_Q ticket st.activation_Q,
            deferred := st.deferred ++ [ticket] } with hst1
        by_cases hbreak : st1.assigned_cpus = cohort_mask
        · rw [if_pos hbreak]
          exact ⟨hsub, hcur, honly, hpw⟩
        · rw [if_neg hbreak]
          exact ih st1 hsub hcur honly hpw

/-- C1: gang invariant of the schedule decision.  For the decision loop of
gang_do_schedule, started as gang_do_schedule starts it (current-ticket
table zeroed by update_sched_info, empty assigned set), every ticket
installed in the current-ticket table is installed at every CPU of the
CPU mask of its domain, every ticket recorded as selected on behalf of a
domain is installed at every CPU of that mask, and the CPU masks of
distinct selected tickets are pairwise disjoint. -/
theorem c1_gang_invariant (g : gang_globals) (cohort_mask : Finset Nat)
    (now : Int) (q actv0 : List sched_ticket) (e0 : Int) :
    (∀ c t,
      (gang_decision_state g cohort_mask now q actv0 e0).cur_ticket_per_cpu c
        = some t →
      ∀ c' ∈ (g.dom_info t.domid).cpumask,
        (gang_decision_state g cohort_mask now q actv0 e0).cur_ticket_per_cpu c'
          = some t)
    ∧ (∀ t ∈ (gang_decision_state g cohort_mask now q actv0 e0).selected,
        ∀ c ∈ (g.dom_info t.domid).cpumask,
          (gang_decision_state g cohort_mask now q actv0 e0).cur_ticket_per_cpu c
            = some t)
    ∧ (gang_decision_state g cohort_mask now q actv0 e0).selected.Pairwise
        (fun a b =>
          Disjoint (g.dom_info a.domid).cpumask (g.dom_info b.domid).cpumask) := by
  have h := scheduleLoop_invariant g cohort_mask now q
    ⟨∅, fun _ => none, actv0, e0, [], []⟩
    (by intro t ht; exact absurd ht (List.not_mem_nil t))
    (by intro t ht; exact absurd ht (List.not_mem_nil t))
    (by intro c t hct; exact Option.noConfusion hct)
    (List.Pairwise.nil)
  refine ⟨?_, h.2.1, h.2.2.2⟩
  intro c t hct c' hc'
  exact h.2.1 t (h.2.2.1 c t hct) c' hc'

/-- C1 witness: with one runnable ticket of a domain spanning CPUs 0 and 1,
the decision step that installs it at CPU 0 also installs it at CPU 1,
with activated_at stamped to now. -/
theorem c1_witness :
    (gang_decision_state
      ⟨fun _ => ⟨{0, 1}, .ttMuxing ⟨0, 100000000, 50000000, false⟩, 0⟩,
        1000, 100000000, 10000000, fun _ => 0, fun _ => {0, 1}, 1, 1, 2⟩
      {0, 1} 7 [⟨0, 0, 100, 50, 0, false, false, false⟩] []
      INFINITY).cur_ticket_per_cpu 1
      = some ⟨0, 0, 100, 50, 7, false, false, false⟩ :=
  (c1_gang_invariant
      ⟨fun _ => ⟨{0, 1}, .ttMuxing ⟨0, 100000000, 50000000, false⟩, 0⟩,
        1000, 100000000, 10000000, fun _ => 0, fun _ => {0, 1}, 1, 1, 2⟩
      {0, 1} 7 [⟨0, 0, 100, 50, 0, false, false, false⟩] [] INFINITY).1
    0 ⟨0, 0, 100, 50, 7, false, false, false⟩ (by decide) 1 (by decide)

/-- Ordered insertion into the activation queue keeps every ticket already
in the queue. -/
lemma mem_insert_into_activation_Q_of_mem (t u : sched_ticket)
    (q : List sched_ticket) (h : t ∈ q) :
    t ∈ __insert_into_activation_Q u q := by
  induction q with
  | nil => exact absurd h (List.not_mem_nil t)
  | cons v rest ih =>
      rw [__insert_into_activation_Q]
      by_cases hle : actv_key_le v u = true
      · rw [if_pos hle]
        rcases List.mem_cons.mp h with rfl | h
        · exact List.mem_cons_self _ _
        · exact List.mem_cons_of_mem _ (ih h)
      · rw [if_neg hle]
        exact List.mem_cons_of_mem _ h

/-- Ordered insertion into the activation queue puts the inserted ticket
into the queue. -/
lemma mem_insert_into_activation_Q_self (u : sched_ticket)
    (q : List sched_ticket) :
    u ∈ __insert_into_activation_Q u q := by
  induction q with
  | nil => exact List.mem_singleton.mpr rfl
  | cons v rest ih =>
      rw [__insert_into_activation_Q]
      by_cases hle : actv_key_le v u = true
      · rw [if_pos hle]
        exact List.mem_cons_of_mem _ ih
      · rw [if_neg hle]
        exact List.mem_cons_self _ _

/-- Invariant of the decision loop for deferred tickets: every deferred
ticket sits (unchanged) in the activation queue and the end of the time
slice is bounded by the tval computed at its deferral. -/
lemma scheduleLoop_deferred_invariant (g : gang_globals)
    (cohort_mask : Finset Nat) (now : Int) (q : List sched_ticket)
    (st : loop_state)
    (hinv : ∀ t ∈ st.deferred,
      t ∈ st.activation_Q ∧ st.end_of_time_slice ≤ deferred_tval now t) :
    ∀ t ∈ (scheduleLoop g cohort_mask now q st).2.deferred,
      t ∈ (scheduleLoop g cohort_mask now q st).2.activation_Q
      ∧ (scheduleLoop g cohort_mask now q st).2.end_of_time_slice
          ≤ deferred_tval now t := by
  induction q generalizing st with
  | nil => exact hinv
  | cons ticket rest ih =>
      rw [scheduleLoop]
      by_cases hint : st.assigned_cpus ∩ (g.dom_info ticket.domid).cpumask = ∅
      · rw [if_pos hint]
        have hinv1 : ∀ t ∈ st.deferred,
            t ∈ st.activation_Q
            ∧ min st.end_of_time_slice
                (if (g.dom_info ticket.domid).tm_muxing_spec.isNoMuxing
                 then INFINITY else now + ticket.remaining_time)
              ≤ deferred_tval now t := by
          intro t ht
          exact ⟨(hinv t ht).1, le_trans (min_le_left _ _) (hinv t ht).2⟩
        by_cases hbreak : st.assigned_cpus ∪ (g.dom_info ticket.domid).cpumask
            = cohort_mask
        · rw [if_pos hbreak]
          exact hinv1
        · rw [if_neg hbreak]
          exact ih _ hinv1
      · rw [if_neg hint]
        have hinv1 : ∀ t ∈ st.deferred ++ [ticket],
            t ∈ __insert_into_activation_Q ticket st.activation_Q
            ∧ min st.end_of_time_slice
                (if ticket.deadline - ticket.remaining_time ≤ now
                 then now + 1000000
                 else ticket.deadline - ticket.remaining_time)
              ≤ deferred_tval now t := by
          intro t ht
          rcases List.mem_append.mp ht with h | h
          · exact ⟨mem_insert_into_activation_Q_of_mem t ticket _ (hinv t h).1,
              le_trans (min_le_left _ _) (hinv t h).2⟩
          · rcases List.mem_singleton.mp h with rfl
            refine ⟨mem_insert_into_activation_Q_self t _, ?_⟩
            rw [deferred_tval]
            exact min_le_right _ _
        by_cases hbreak : st.assigned_cpus = cohort_mask
        · rw [if_pos hbreak]
          exact hinv1
        · rw [if_neg hbreak]
          exact ih _ hinv1

/-- C3 counterexample: the claim that a deferred ticket is re-inserted into
the activation queue with tval = max(deadline - remaining_time, now + 1 ms)
as its reappearance time, so that it becomes runnable again only strictly
in the future, is false.  With two runnable tickets of overlapping
domains (both on CPU 0) at now = 0, the second popped ticket (domid 1,
deadline 50, remaining 20, earliest start time 0) is deferred and sits in
the activation queue with its earliest start time UNCHANGED at 0 (not in
the future, and not equal to max(30, 1000000) = 1000000); no ticket of
that domain carries the claimed reappearance time. -/
theorem c3_counterexample :
    (⟨1, 0, 50, 20, 0, false, false, false⟩ : sched_ticket)
      ∈ (gang_decision_state
          ⟨fun _ => ⟨{0}, .ttMuxing ⟨0, 100000000, 50000000, false⟩, 0⟩,
            1000, 100000000, 10000000, fun _ => 0, fun _ => {0}, 1, 1, 1⟩
          {0, 1} 0
          [⟨0, 0, 100, 50, 0, false, false, false⟩,
           ⟨1, 0, 50, 20, 0, false, false, false⟩]
          [] INFINITY).deferred
    ∧ (⟨1, 0, 50, 20, 0, false, false, false⟩ : sched_ticket)
      ∈ (gang_decision_state
          ⟨fun _ => ⟨{0}, .ttMuxing ⟨0, 100000000, 50000000, false⟩, 0⟩,
            1000, 100000000, 10000000, fun _ => 0, fun _ => {0}, 1, 1, 1⟩
          {0, 1} 0
          [⟨0, 0, 100, 50, 0, false, false, false⟩,
           ⟨1, 0, 50, 20, 0, false, false, false⟩]
          [] INFINITY).activation_Q
    ∧ ¬ (0 : Int) < (0 : Int)
    ∧ (0 : Int) ≠ max ((50 : Int) - 20) (0 + 1000000)
    ∧ ¬ (∃ u ∈ (gang_decision_state
          ⟨fun _ => ⟨{0}, .ttMuxing ⟨0, 100000000, 50000000, false⟩, 0⟩,
            1000, 100000000, 10000000, fun _ => 0, fun _ => {0}, 1, 1, 1⟩
          {0, 1} 0
          [⟨0, 0, 100, 50, 0, false, false, false⟩,
           ⟨1, 0, 50, 20, 0, false, false, false⟩]
          [] INFINITY).activation_Q,
          u.domid = 1 ∧ u.earliest_start_time = max ((50 : Int) - 20) (0 + 1000000)) := by
  decide

/-- C3 amended: a popped ticket whose domain CPU mask intersects the set of
already assigned CPUs is re-inserted into the activation queue UNCHANGED
(its earliest_start_time keeps its old value, which may be at or before
now); the computed tval, which equals deadline - remaining_time unless
that is at or before now, in which case now + 1 ms, is used only as an
upper bound on the end of the time slice of this decision, not as the
reappearance time of the ticket. -/
theorem c3_deferred_reinserted_unchanged (g : gang_globals)
    (cohort_mask : Finset Nat) (now : Int) (q actv0 : List sched_ticket)
    (e0 : Int) :
    ∀ t ∈ (gang_decision_state g cohort_mask now q actv0 e0).deferred,
      t ∈ (gang_decision_state g cohort_mask now q actv0 e0).activation_Q
      ∧ (gang_decision_state g cohort_mask now q actv0 e0).end_of_time_slice
          ≤ deferred_tval now t := by
  exact scheduleLoop_deferred_invariant g cohort_mask now q
    ⟨∅, fun _ => none, actv0, e0, [], []⟩
    (by intro t ht; exact absurd ht (List.not_mem_nil t))

/-- C3 witness: in the two-ticket scenario of the counterexample, the
amended statement instantiates to the deferred ticket of domain 1: it is
in the final activation queue and the end of the decision time slice is
at most its tval of 30. -/
theorem c3_witness :
    (⟨1, 0, 50, 20, 0, false, false, false⟩ : sched_ticket)
      ∈ (gang_decision_state
          ⟨fun _ => ⟨{0}, .ttMuxing ⟨0, 100000000, 50000000, false⟩, 0⟩,
            1000, 100000000, 10000000, fun _ => 0, fun _ => {0}, 1, 1, 1⟩
          {0, 1} 0
          [⟨0, 0, 100, 50, 0, false, false, false⟩,
           ⟨1, 0, 50, 20, 0, false, false, false⟩]
          [] INFINITY).activation_Q
    ∧ (gang_decision_state
          ⟨fun _ => ⟨{0}, .ttMuxing ⟨0, 100000000, 50000000, false⟩, 0⟩,
            1000, 100000000, 10000000, fun _ => 0, fun _ => {0}, 1, 1, 1⟩
          {0, 1} 0
          [⟨0, 0, 100, 50, 0, false, false, false⟩,
           ⟨1, 0, 50, 20, 0, false, false, false⟩]
          [] INFINITY).end_of_time_slice
        ≤ deferred_tval 0 ⟨1, 0, 50, 20, 0, false, false, false⟩ :=
  c3_deferred_reinserted_unchanged
      ⟨fun _ => ⟨{0}, .ttMuxing ⟨0, 100000000, 50000000, false⟩, 0⟩,
        1000, 100000000, 10000000, fun _ => 0, fun _ => {0}, 1, 1, 1⟩
      {0, 1} 0
      [⟨0, 0, 100, 50, 0, false, false, false⟩,
       ⟨1, 0, 50, 20, 0, false, false, false⟩]
      [] INFINITY
      ⟨1, 0, 50, 20, 0, false, false, false⟩ (by decide)

/-- C7 counterexample: the claim that with the tasklet hint set the
returned slice ends at earliest_actv (duration earliest_actv - now, with
no-limit only for an empty activation queue) is false.  With a non-empty
activation queue whose head has earliest start time 5 ms and now = 0, the
tasklet path still returns the idle VCPU with duration -1 (no limit),
because the goto skips the step that caps the end of slice with
earliest_actv: the end of slice is still INFINITY. -/
theorem c7_counterexample :
    ((gang_do_schedule
        ⟨fun _ => ⟨{0}, .ttMuxing ⟨0, 100000000, 50000000, false⟩, 0⟩,
          1000, 100000000, 10000000, fun _ => 0, fun _ => {0}, 1, 1, 1⟩
        ⟨[], [⟨0, 5000000, 10000000, 50000, 0, false, false, false⟩],
          fun _ => none⟩
        0 0 true ⟨true, ⟨0, 0, 0, 0, 0, false, false, false⟩⟩).map
        (fun r => (r.slice.task, r.slice.time, r.earliest_actv)))
      = some (none, -1, 5000000)
    ∧ (-1 : Int) ≠ 5000000 - 0 := by
  decide

/-- C7 amended: for every invocation of gang_do_schedule with the tasklet
hint set (and a non-empty pool, and the queue update not crashing), the
idle VCPU is selected and the returned duration is -1 (no limit),
regardless of the activation queue: the goto to the exit label skips the
capping of the end of slice by earliest_actv, leaving it INFINITY. -/
theorem c7_tasklet_idle_no_limit (g : gang_globals) (s : sched_info)
    (cpu_id : Nat) (now : Int) (cur : cur_vcpu_info)
    (hco : ¬ (g.num_of_cohorts = 0 ∨ g.num_of_muxgroups = 0))
    (hupd : (__update_sched_info g s now).isSome = true) :
    ((gang_do_schedule g s cpu_id now true cur).map
        (fun r => (r.slice.task, r.slice.time, r.slice.migrated)))
      = some (none, -1, false) := by
  have h : ∃ p, __update_sched_info g s now = some p := by
    cases hu : __update_sched_info g s now
    · rw [hu] at hupd
      exact absurd hupd (by simp)
    · exact ⟨_, rfl⟩
  rcases h with ⟨⟨s1, ea⟩, h⟩
  simp [gang_do_schedule, hco, h]

/-- C7 witness: a concrete tasklet invocation on a one-CPU pool returns
the idle VCPU with no time limit. -/
theorem c7_witness :
    ((gang_do_schedule
        ⟨fun _ => ⟨{0}, .ttMuxing ⟨0, 100000000, 50000000, false⟩, 0⟩,
          1000, 100000000, 10000000, fun _ => 0, fun _ => {0}, 1, 1, 1⟩
        ⟨[], [], fun _ => none⟩
        0 0 true ⟨true, ⟨0, 0, 0, 0, 0, false, false, false⟩⟩).map
        (fun r => (r.slice.task, r.slice.time, r.slice.migrated)))
      = some (none, -1, false) :=
  c7_tasklet_idle_no_limit
    ⟨fun _ => ⟨{0}, .ttMuxing ⟨0, 100000000, 50000000, false⟩, 0⟩,
      1000, 100000000, 10000000, fun _ => 0, fun _ => {0}, 1, 1, 1⟩
    ⟨[], [], fun _ => none⟩
    0 0 ⟨true, ⟨0, 0, 0, 0, 0, false, false, false⟩⟩
    (by decide) (by decide)

/-- C10: freeing per-CPU data always trips an internal assertion.  The
record produced by gang_alloc_pdata stores a non-null local-scheduler
pointer, while gang_free_pdata asserts that this pointer is null and then
calls deinit_sched_info, which requires the same pointer to be non-null:
the two conditions are contradictory, so the free path cannot complete
without an assertion or BUG failure for the record alloc produces, nor
for any other non-null record. -/
theorem c10_free_pdata_assertion_fails :
    gang_free_pdata (some gang_alloc_pdata) = none
    ∧ gang_alloc_pdata.local_sched.isSome = true
    ∧ ∀ pci : gang_pcpu_info, gang_free_pdata (some pci) = none := by
  refine ⟨rfl, rfl, ?_⟩
  intro pci
  cases hls : pci.local_sched with
  | none => simp [gang_free_pdata, hls]
  | some s => simp [gang_free_pdata, hls]

/-- When the extraction helper finds nothing, the cohort intersects no
later cohort. -/
lemma extract_intersecting_none (c : Finset Nat) (l : List (Finset Nat))
    (h : __extract_intersecting c l = none) : ∀ d ∈ l, c ∩ d = ∅ := by
  induction l with
  | nil => intro d hd; exact absurd hd (List.not_mem_nil d)
  | cons d ds ih =>
      rw [__extract_intersecting] at h
      by_cases hint : ¬ (c ∩ d = ∅)
      · rw [if_pos hint] at h
        exact Option.noConfusion h
      · rw [if_neg hint] at h
        intro e he
        rcases List.mem_cons.mp he with rfl | he
        · exact not_not.mp hint
        · exact ih (Option.map_eq_none'.mp h) e he

/-- A successful extraction removes exactly one element: every element of
the scanned list is the extracted cohort or survives in the remainder,
and the length drops by one. -/
lemma extract_intersecting_some (c : Finset Nat) (l : List (Finset Nat))
    (d : Finset Nat) (rest : List (Finset Nat))
    (h : __extract_intersecting c l = some (d, rest)) :
    (∀ e ∈ l, e = d ∨ e ∈ rest) ∧ l.length = rest.length + 1 := by
  induction l generalizing d rest with
  | nil => exact Option.noConfusion h
  | cons e es ih =>
      rw [__extract_intersecting] at h
      by_cases hint : ¬ (c ∩ e = ∅)
      · rw [if_pos hint] at h
        rcases Prod.mk.injEq _ _ _ _ ▸ Option.some.injEq _ _ ▸ h with ⟨rfl, rfl⟩
        refine ⟨?_, rfl⟩
        intro x hx
        rcases List.mem_cons.mp hx with rfl | hx
        · exact Or.inl rfl
        · exact Or.inr hx
      · rw [if_neg hint] at h
        rcases Option.map_eq_some'.mp h with ⟨p, hp, hpe⟩
        rcases Prod.mk.injEq _ _ _ _ ▸ hpe with ⟨rfl, rfl⟩
        rcases ih p.1 p.2 (by rw [hp]) with ⟨hmem, hlen⟩
        refine ⟨?_, by simp [hlen]⟩
        intro x hx
        rcases List.mem_cons.mp hx with rfl | hx
        · exact Or.inr (List.mem_cons_self _ _)
        · rcases hmem x hx with rfl | hx2
          · exact Or.inl rfl
          · exact Or.inr (List.mem_cons_of_mem _ hx2)

/-- When the merge step finds no pair, the live cohorts are pairwise
disjoint: the fixed point of the merge loop. -/
lemma merge_once_none (l : List (Finset Nat)) (h : __merge_once l = none) :
    l.Pairwise (fun a b => a ∩ b = ∅) := by
  induction l with
  | nil => exact List.Pairwise.nil
  | cons c rest ih =>
      rw [__merge_once] at h
      cases hx : __extract_intersecting c rest with
      | some p => rw [hx] at h; exact Option.noConfusion h
      | none =>
          rw [hx] at h
          exact List.Pairwise.cons (extract_intersecting_none c rest hx)
            (ih (Option.map_eq_none'.mp h))

/-- A successful merge step shortens the list by one. -/
lemma merge_once_length (l l2 : List (Finset Nat))
    (h : __merge_once l = some l2) : l.length = l2.length + 1 := by
  induction l generalizing l2 with
  | nil => exact Option.noConfusion h
  | cons c rest ih =>
      rw [__merge_once] at h
      cases hx : __extract_intersecting c rest with
      | some p =>
          rw [hx] at h
          rcases Option.some.injEq _ _ ▸ h with rfl
          have := (extract_intersecting_some c rest p.1 p.2 (by rw [hx])).2
          simp [this]
      | none =>
          rw [hx] at h
          rcases Option.map_eq_some'.mp h with ⟨l3, hl3, rfl⟩
          simp [ih l3 hl3]

/-- A successful merge step only unions cohorts: every old cohort is
contained in some new cohort. -/
lemma merge_once_superset (l l2 : List (Finset Nat))
    (h : __merge_once l = some l2) : ∀ e ∈ l, ∃ e2 ∈ l2, e ⊆ e2 := by
  induction l generalizing l2 with
  | nil => exact Option.noConfusion h
  | cons c rest ih =>
      rw [__merge_once] at h
      cases hx : __extract_intersecting c rest with
      | some p =>
          rw [hx] at h
          rcases Option.some.injEq _ _ ▸ h with rfl
          have hmem := (extract_intersecting_some c rest p.1 p.2 (by rw [hx])).1
          intro e he
          rcases List.mem_cons.mp he with rfl | he
          · exact ⟨e ∪ p.1, List.mem_cons_self _ _, Finset.subset_union_left⟩
          · rcases hmem e he with heq | he2
            · exact ⟨c ∪ p.1, List.mem_cons_self _ _,
                heq ▸ Finset.subset_union_right⟩
            · exact ⟨e, List.mem_cons_of_mem _ he2, Finset.Subset.refl e⟩
      | none =>
          rw [hx] at h
          rcases Option.map_eq_some'.mp h with ⟨l3, hl3, rfl⟩
          intro e he
          rcases List.mem_cons.mp he with rfl | he
          · exact ⟨e, List.mem_cons_self _ _, Finset.Subset.refl e⟩
          · rcases ih l3 hl3 e he with ⟨e2, he2, hsub⟩
            exact ⟨e2, List.mem_cons_of_mem _ he2, hsub⟩

/-- Run with fuel at least the live length, the merge loop reaches its
fixed point: the resulting live cohorts are pairwise disjoint. -/
lemma merge_cohorts_pairwise (fuel : Nat) (ca : cohort_array)
    (hf : ca.live.length ≤ fuel) :
    (__merge_cohorts fuel ca).live.Pairwise (fun a b => a ∩ b = ∅) := by
  induction fuel generalizing ca with
  | zero =>
      have : ca.live = [] := List.length_eq_zero.mp (Nat.le_zero.mp hf)
      rw [__merge_cohorts, this]
      exact List.Pairwise.nil
  | succ n ih =>
      rw [__merge_cohorts]
      cases hm : __merge_once_array ca with
      | some ca2 =>
          rw [__merge_once_array] at hm
          cases hmo : __merge_once ca.live with
          | some live2 =>
              rw [hmo] at hm
              rcases Option.some.injEq _ _ ▸ hm with rfl
              refine ih _ ?_
              have := merge_once_length ca.live live2 hmo
              simp only []
              omega
          | none => rw [hmo] at hm; exact Option.noConfusion hm
      | none =>
          rw [__merge_once_array] at hm
          cases hmo : __merge_once ca.live with
          | some live2 => rw [hmo] at hm; exact Option.noConfusion hm
          | none => exact merge_once_none ca.live hmo

/-- The merge loop only unions cohorts: every cohort live before it is
contained in some cohort live after it. -/
lemma merge_cohorts_superset (fuel : Nat) (ca : cohort_array) :
    ∀ e ∈ ca.live, ∃ e2 ∈ (__merge_cohorts fuel ca).live, e ⊆ e2 := by
  induction fuel generalizing ca with
  | zero =>
      intro e he
      exact ⟨e, he, Finset.Subset.refl e⟩
  | succ n ih =>
      rw [__merge_cohorts]
      cases hm : __merge_once_array ca with
      | some ca2 =>
          intro e he
          rw [__merge_once_array] at hm
          cases hmo : __merge_once ca.live with
          | some live2 =>
              rw [hmo] at hm
              rcases Option.some.injEq _ _ ▸ hm with rfl
              rcases merge_once_superset ca.live live2 hmo e he with ⟨e1, he1, hs1⟩
              rcases ih ⟨live2, ca.live.getLastD ∅ :: ca.stale⟩ e1 he1 with
                ⟨e2, he2, hs2⟩
              exact ⟨e2, he2, hs1.trans hs2⟩
          | none => rw [hmo] at hm; exact Option.noConfusion hm
      | none =>
          intro e he
          exact ⟨e, he, Finset.Subset.refl e⟩

/-- A successful scan preserves every cohort up to union and yields a
cohort containing the inserted mask. -/
lemma cohort_scan_some (mask : Finset Nat) (l l2 : List (Finset Nat))
    (h : __cohort_scan mask l = some l2) :
    (∀ e ∈ l, ∃ e2 ∈ l2, e ⊆ e2) ∧ (∃ e2 ∈ l2, mask ⊆ e2) := by
  induction l generalizing l2 with
  | nil => exact Option.noConfusion h
  | cons c rest ih =>
      rw [__cohort_scan] at h
      by_cases hint : ¬ (mask ∩ c = ∅)
      · rw [if_pos hint] at h
        rcases Option.some.injEq _ _ ▸ h with rfl
        constructor
        · intro e he
          rcases List.mem_cons.mp he with rfl | he
          · by_cases hsb : mask ⊆ e
            · exact ⟨e, by rw [if_pos hsb]; exact List.mem_cons_self _ _,
                Finset.Subset.refl e⟩
            · exact ⟨e ∪ mask, by rw [if_neg hsb]; exact List.mem_cons_self _ _,
                Finset.subset_union_left⟩
          · exact ⟨e, List.mem_cons_of_mem _ he, Finset.Subset.refl e⟩
        · by_cases hsb : mask ⊆ c
          · exact ⟨c, by rw [if_pos hsb]; exact List.mem_cons_self _ _, hsb⟩
          · exact ⟨c ∪ mask, by rw [if_neg hsb]; exact List.mem_cons_self _ _,
              Finset.subset_union_right⟩
      · rw [if_neg hint] at h
        rcases Option.map_eq_some'.mp h with ⟨l3, hl3, rfl⟩
        rcases ih l3 hl3 with ⟨hcov, e2, he2, hsub⟩
        constructor
        · intro e he
          rcases List.mem_cons.mp he with rfl | he
          · exact ⟨e, List.mem_cons_self _ _, Finset.Subset.refl e⟩
          · rcases hcov e he with ⟨x, hx, hsx⟩
            exact ⟨x, List.mem_cons_of_mem _ hx, hsx⟩
        · exact ⟨e2, List.mem_cons_of_mem _ he2, hsub⟩

/-- The insert step preserves every live cohort up to union and yields a
live cohort containing the inserted mask. -/
lemma cohort_insert_superset (mask : Finset Nat) (ca : cohort_array) :
    (∀ e ∈ ca.live, ∃ e2 ∈ (__cohort_insert mask ca).live, e ⊆ e2)
    ∧ (∃ e2 ∈ (__cohort_insert mask ca).live, mask ⊆ e2) := by
  rw [__cohort_insert]
  cases hs : __cohort_scan mask ca.live with
  | some live2 => exact cohort_scan_some mask ca.live live2 hs
  | none =>
      constructor
      · intro e he
        exact ⟨e, List.mem_append.mpr (Or.inl he), Finset.Subset.refl e⟩
      · exact ⟨ca.stale.headD ∅ ∪ mask,
          List.mem_append.mpr (Or.inr (List.mem_singleton.mpr rfl)),
          Finset.subset_union_right⟩

/-- After one update_cohorts call the live cohorts are pairwise disjoint. -/
lemma update_cohorts_pairwise (mask : Finset Nat) (ca : cohort_array) :
    (__update_cohorts mask ca).live.Pairwise (fun a b => a ∩ b = ∅) := by
  rw [__update_cohorts]
  exact merge_cohorts_pairwise _ _ (le_refl _)

/-- update_cohorts preserves every live cohort up to union and yields a
live cohort containing the inserted mask. -/
lemma update_cohorts_superset (mask : Finset Nat) (ca : cohort_array) :
    (∀ e ∈ ca.live, ∃ e2 ∈ (__update_cohorts mask ca).live, e ⊆ e2)
    ∧ (∃ e2 ∈ (__update_cohorts mask ca).live, mask ⊆ e2) := by
  rw [__update_cohorts]
  rcases cohort_insert_superset mask ca with ⟨hcov, e2, he2, hsub⟩
  constructor
  · intro e he
    rcases hcov e he with ⟨e1, he1, hs1⟩
    rcases merge_cohorts_superset _ _ e1 he1 with ⟨e3, he3, hs3⟩
    exact ⟨e3, he3, hs1.trans hs3⟩
  · rcases merge_cohorts_superset _ _ e2 he2 with ⟨e3, he3, hs3⟩
    exact ⟨e3, he3, hsub.trans hs3⟩

/-- Folding update_cohorts over domain masks preserves every live cohort
up to union and covers every inserted mask. -/
lemma foldl_update_cohorts_superset (doms : List (Finset Nat))
    (ca : cohort_array) :
    (∀ e ∈ ca.live,
      ∃ c ∈ (doms.foldl (fun ca m => __update_cohorts m ca) ca).live, e ⊆ c)
    ∧ (∀ m ∈ doms,
      ∃ c ∈ (doms.foldl (fun ca m => __update_cohorts m ca) ca).live, m ⊆ c) := by
  induction doms generalizing ca with
  | nil =>
      refine ⟨fun e he => ⟨e, he, Finset.Subset.refl e⟩, ?_⟩
      intro m hm
      exact absurd hm (List.not_mem_nil m)
  | cons m rest ih =>
      rw [List.foldl_cons]
      constructor
      · intro e he
        rcases (update_cohorts_superset m ca).1 e he with ⟨e1, he1, hs1⟩
        rcases (ih (__update_cohorts m ca)).1 e1 he1 with ⟨c, hc, hsc⟩
        exact ⟨c, hc, hs1.trans hsc⟩
      · intro m2 hm2
        rcases List.mem_cons.mp hm2 with rfl | hm2
        · rcases (update_cohorts_superset m2 ca).2 with ⟨e1, he1, hs1⟩
          rcases (ih (__update_cohorts m2 ca)).1 e1 he1 with ⟨c, hc, hsc⟩
          exact ⟨c, hc, hs1.trans hsc⟩
        · exact (ih (__update_cohorts m ca)).2 m2 hm2

/-- Pairwise disjointness of the live cohorts is preserved by the fold. -/
lemma foldl_update_cohorts_pairwise (doms : List (Finset Nat))
    (ca : cohort_array)
    (hca : ca.live.Pairwise (fun a b => a ∩ b = ∅)) :
    (doms.foldl (fun ca m => __update_cohorts m ca) ca).live.Pairwise
      (fun a b => a ∩ b = ∅) := by
  induction doms generalizing ca with
  | nil => exact hca
  | cons m rest ih =>
      rw [List.foldl_cons]
      exact ih _ (update_cohorts_pairwise m ca)

/-- C8: cohort computation fixed point.  After inserting every admitted
domain CPU mask through update_cohorts, the live cohort masks are
pairwise disjoint (every CPU belongs to at most one cohort), and every
admitted domain with a non-empty CPU mask is contained in exactly one
live cohort mask. -/
theorem c8_cohort_fixed_point (doms : List (Finset Nat))
    (hne : ∀ m ∈ doms, m.Nonempty) :
    (__populate_cohorts doms).live.Pairwise (fun a b => a ∩ b = ∅)
    ∧ ∀ m ∈ doms, ∃ c ∈ (__populate_cohorts doms).live,
        m ⊆ c ∧ ∀ c2 ∈ (__populate_cohorts doms).live, m ⊆ c2 → c2 = c := by
  have hpw : (__populate_cohorts doms).live.Pairwise (fun a b => a ∩ b = ∅) :=
    foldl_update_cohorts_pairwise doms ⟨[], []⟩ List.Pairwise.nil
  refine ⟨hpw, ?_⟩
  intro m hm
  rcases (foldl_update_cohorts_superset doms ⟨[], []⟩).2 m hm with ⟨c, hc, hsc⟩
  refine ⟨c, hc, hsc, ?_⟩
  intro c2 hc2 hsc2
  by_contra hne2
  have hdisj : c2 ∩ c = ∅ :=
    hpw.forall (fun a b (hab : a ∩ b = ∅) => by
      rw [Finset.inter_comm] at hab; exact hab) hc2 hc hne2
  rcases hne m hm with ⟨a, ha⟩
  have : a ∈ c2 ∩ c := Finset.mem_inter.mpr ⟨hsc2 ha, hsc ha⟩
  rw [hdisj] at this
  exact absurd this (Finset.not_mem_empty a)

/-- C8 witness: the four masks {0}, {1}, {0,1}, {5} are all non-empty, and
the final cohort computation places the mask {5} inside exactly one live
cohort. -/
theorem c8_witness :
    ∃ c ∈ (__populate_cohorts [{0}, {1}, {0, 1}, {5}]).live,
      ({5} : Finset Nat) ⊆ c
      ∧ ∀ c2 ∈ (__populate_cohorts [{0}, {1}, {0, 1}, {5}]).live,
          ({5} : Finset Nat) ⊆ c2 → c2 = c :=
  (c8_cohort_fixed_point [{0}, {1}, {0, 1}, {5}]
    (by decide)).2 {5} (by decide)

/-- The overlay does not change the domain ids or their order. -/
lemma overlay_entries_map_fst (entries : List gang_sched_dom_conf)
    (pool : List (Int × dom_state)) :
    (__overlay_entries entries pool).map Prod.fst = pool.map Prod.fst := by
  induction pool with
  | nil => rfl
  | cons pr rest ih =>
      rw [__overlay_entries, List.map_cons, List.map_cons]
      rw [__overlay_entries] at ih
      rw [ih]
      cases entries.find? (fun e => e.domid == pr.1) with
      | none => rfl
      | some e => rfl

/-- getinfo does not change the domain ids or their order. -/
lemma getinfo_map_fst (pool : List (Int × dom_state)) :
    (gang_adjust_getinfo pool).map Prod.fst = pool.map Prod.fst := by
  rw [gang_adjust_getinfo, List.map_map]
  rfl

/-- With pairwise distinct domain ids, searching the entries for the id of
one of them finds exactly that entry. -/
lemma find_entry_self (entries : List gang_sched_dom_conf)
    (e : gang_sched_dom_conf) (he : e ∈ entries)
    (hnd : (entries.map (fun x => x.domid)).Nodup) :
    entries.find? (fun x => x.domid == e.domid) = some e := by
  induction entries with
  | nil => exact absurd he (List.not_mem_nil e)
  | cons a rest ih =>
      rw [List.map_cons, List.nodup_cons] at hnd
      rcases hnd with ⟨ha, hrest⟩
      by_cases hid : a.domid = e.domid
      · rcases List.mem_cons.mp he with rfl | he2
        · exact List.find?_cons_of_pos _ (by simp)
        · have : a.domid ∈ rest.map (fun x => x.domid) := by
            rw [hid]
            exact List.mem_map.mpr ⟨e, he2, rfl⟩
          exact absurd this ha
      · rw [List.find?_cons_of_neg _ (by simpa using hid)]
        rcases List.mem_cons.mp he with rfl | he2
        · exact absurd rfl hid
        · exact ih he2 hrest

/-- A validated entry names an existing pool domain. -/
lemma validate_dom_entry_find (rl : Int) (pool : List (Int × dom_state))
    (pool_cpus : Finset Nat) (e : gang_sched_dom_conf)
    (h : __validate_dom_entry rl pool pool_cpus e = true) :
    ∃ pr ∈ pool, pr.1 = e.domid := by
  rw [__validate_dom_entry, Bool.and_eq_true] at h
  rcases h with ⟨-, h⟩
  cases hf : pool.find? (fun pr => pr.1 == e.domid) with
  | none =>
      rw [hf] at h
      exact Bool.noConfusion h
  | some pr =>
      exact ⟨pr, List.mem_of_find?_eq_some hf,
        by simpa using List.find?_some hf⟩

/-- The getinfo snapshot of the overlay contains the triple formed from a
pool domain and the entry found for its id. -/
lemma getinfo_overlay_mem_of (entries : List gang_sched_dom_conf)
    (pool : List (Int × dom_state)) (pr : Int × dom_state)
    (e : gang_sched_dom_conf) (hpr : pr ∈ pool)
    (hfe : entries.find? (fun x => x.domid == pr.1) = some e) :
    (pr.1, e.cpumap, e.gang_sched_policy)
      ∈ gang_adjust_getinfo (__overlay_entries entries pool) := by
  refine List.mem_map.mpr
    ⟨(pr.1, ⟨pr.2.nVcpus, e.cpumap, e.gang_sched_policy⟩), ?_, rfl⟩
  refine List.mem_map.mpr ⟨pr, hpr, ?_⟩
  rw [hfe]

/-- C9 amended (round trip): for every configuration accepted by putinfo
that names every domain of the pool, a subsequent getinfo returns exactly
the entries of that configuration, up to the order of the entries (the
returned order is the domain-list iteration order, not the order of the
request or of the policy-class sort) and with each CPU mask compared as a
set of CPU ids (the bitmap canonicalizes the order inside a mask).
Domains the configuration does not name keep their previous parameters,
which is why the coverage hypothesis is needed (see the counterexample). -/
theorem c9_put_get_roundtrip (rl : Int) (max_doms : Nat)
    (pool : List (Int × dom_state)) (pool_cpus : Finset Nat)
    (entries : List gang_sched_dom_conf) (pool2 : List (Int × dom_state))
    (hpoolnd : (pool.map Prod.fst).Nodup)
    (hcover : ∀ pr ∈ pool, ∃ e ∈ entries, e.domid = pr.1)
    (hput : gang_adjust_putinfo rl max_doms pool pool_cpus entries
      = some pool2) :
    (gang_adjust_getinfo pool2).Perm (entries.map conf_triple) := by
  have hval : __putinfo_validate rl max_doms pool pool_cpus entries = true := by
    by_contra hv
    rw [gang_adjust_putinfo, if_neg hv] at hput
    exact Option.noConfusion hput
  have hpool2 : pool2 = __overlay_entries entries pool := by
    rw [gang_adjust_putinfo, if_pos hval] at hput
    exact (Option.some.injEq _ _ ▸ hput).symm
  subst hpool2
  have hvparts := hval
  rw [__putinfo_validate, Bool.and_eq_true, Bool.and_eq_true,
    Bool.and_eq_true] at hvparts
  rcases hvparts with ⟨⟨⟨-, -⟩, hnd⟩, hall⟩
  have hend : (entries.map (fun e => e.domid)).Nodup := of_decide_eq_true hnd
  have hent : ∀ e ∈ entries,
      __validate_dom_entry rl pool pool_cpus e = true :=
    fun e he => List.all_eq_true.mp hall e he
  refine (List.perm_ext_iff_of_nodup ?_ ?_).mpr ?_
  · refine List.Nodup.of_map Prod.fst ?_
    rw [getinfo_map_fst, overlay_entries_map_fst]
    exact hpoolnd
  · refine List.Nodup.of_map Prod.fst ?_
    rw [List.map_map]
    exact hend
  · intro a
    constructor
    · intro ha
      rcases List.mem_map.mp ha with ⟨pr2, hpr2, rfl⟩
      rcases List.mem_map.mp hpr2 with ⟨pr, hpr, rfl⟩
      rcases hcover pr hpr with ⟨e, he, hed⟩
      cases hf : entries.find? (fun x => x.domid == pr.1) with
      | none =>
          have := List.find?_eq_none.mp hf e he
          exact absurd (by simpa using hed) this
      | some e2 =>
          have he2mem := List.mem_of_find?_eq_some hf
          have he2id : e2.domid = pr.1 := by simpa using List.find?_some hf
          refine List.mem_map.mpr ⟨e2, he2mem, ?_⟩
          simp [conf_triple, he2id]
    · intro ha
      rcases List.mem_map.mp ha with ⟨e, he, rfl⟩
      rcases validate_dom_entry_find rl pool pool_cpus e (hent e he)
        with ⟨pr, hpr, hid⟩
      have hfe : entries.find? (fun x => x.domid == pr.1) = some e := by
        rw [hid]
        exact find_entry_self entries e he hend
      have := getinfo_overlay_mem_of entries pool pr e hpr hfe
      rw [hid] at this
      exact this

/-- C9 counterexample: the round trip does not hold for every accepted
configuration.  A pool with two domains (ids 1 and 2) accepts a putinfo
request that names only domain 1, but the subsequent getinfo returns two
entries, one per pool domain, so it does not equal the one-entry request
under any reordering of entries or of CPU ids inside masks. -/
theorem c9_counterexample :
    gang_adjust_putinfo 1000 64
      [(1, ⟨1, {0}, .ttMuxing ⟨0, 100000000, 50000000, false⟩⟩),
       (2, ⟨1, {1}, .ttMuxing ⟨0, 100000000, 50000000, false⟩⟩)]
      {0, 1}
      [⟨1, {0}, .ttMuxing ⟨0, 200000000, 50000000, false⟩⟩]
      = some
        [(1, ⟨1, {0}, .ttMuxing ⟨0, 200000000, 50000000, false⟩⟩),
         (2, ⟨1, {1}, .ttMuxing ⟨0, 100000000, 50000000, false⟩⟩)]
    ∧ ¬ (gang_adjust_getinfo
          [(1, ⟨1, {0}, .ttMuxing ⟨0, 200000000, 50000000, false⟩⟩),
           (2, ⟨1, {1}, .ttMuxing ⟨0, 100000000, 50000000, false⟩⟩)]).Perm
        ([⟨1, {0}, .ttMuxing ⟨0, 200000000, 50000000, false⟩⟩].map
          conf_triple) := by
  constructor
  · rfl
  · decide

/-- C9 witness: a pool with two domains and a request that reconfigures
both (swapping their CPUs) round-trips: getinfo after the accepted
putinfo returns exactly the two request entries up to entry order. -/
theorem c9_witness :
    (gang_adjust_getinfo
      [(1, ⟨1, {1}, .ttMuxing ⟨0, 200000000, 50000000, false⟩⟩),
       (2, ⟨1, {0}, .etMuxing ⟨0, 400000000, 100000000, true⟩⟩)]).Perm
      ([(⟨1, {1}, .ttMuxing ⟨0, 200000000, 50000000, false⟩⟩ :
          gang_sched_dom_conf),
        ⟨2, {0}, .etMuxing ⟨0, 400000000, 100000000, true⟩⟩].map
        conf_triple) :=
  c9_put_get_roundtrip 1000 64
    [(1, ⟨1, {0}, .ttMuxing ⟨0, 100000000, 50000000, false⟩⟩),
     (2, ⟨1, {1}, .ttMuxing ⟨0, 100000000, 50000000, false⟩⟩)]
    {0, 1}
    [⟨1, {1}, .ttMuxing ⟨0, 200000000, 50000000, false⟩⟩,
     ⟨2, {0}, .etMuxing ⟨0, 400000000, 100000000, true⟩⟩]
    [(1, ⟨1, {1}, .ttMuxing ⟨0, 200000000, 50000000, false⟩⟩),
     (2, ⟨1, {0}, .etMuxing ⟨0, 400000000, 100000000, true⟩⟩)]
    (by decide) (by decide) (by decide)

end GangSched
